import Mathlib

/-!
Verification development for the image-generation core of the PSBananaUXP
Photoshop plugin (`image_generator.js`, `workflow_templates.js`,
`provider_config.js`).

The JavaScript source is shallowly embedded: pure functions become Lean
functions, the stateful workflow-template mutation is modelled by an explicit
object heap, the polling loop becomes a fuel-bounded recursion over an oracle
describing the history endpoint, and JS floating-point edge values
(`Infinity`, `NaN`) are modelled by an explicit inductive type.  Machine
floats are modelled by exact rational/real arithmetic; the magnitudes involved
(tens of thousands) are far below any range where float64 rounding could
change a `Math.round` result that the theorems depend on.
-/

namespace PSBanana

/-! ### String utilities

Models of the JavaScript string primitives used by the source
(`String.prototype.includes`, substring search). -/

/-- First index at which `pat` occurs as a contiguous sublist of `l`, if any.
Scans left to right, so it returns the earliest occurrence. -/
def findIdx (pat : List Char) : List Char → Option Nat
  | [] => if pat = [] then some 0 else none
  | c :: rest =>
    if pat.isPrefixOf (c :: rest) then some 0
    else (findIdx pat rest).map (· + 1)

/-- Model of JS `s.includes(pat)`: `pat` occurs as a substring of `s`. -/
def containsStr (pat s : String) : Bool :=
  (findIdx pat.toList s.toList).isSome

/-- ASCII lowercasing of one character (the only case folding the source's
inputs exercise). -/
def charToLower (c : Char) : Char :=
  if 'A' ≤ c && c ≤ 'Z' then Char.ofNat (c.toNat + 32) else c

/-- Model of JS `toLowerCase` on the ASCII range. -/
def jsToLower (s : String) : String := String.mk (s.toList.map charToLower)

/-- Model of JS `a.includes(pat) ` on lowercased strings, used by the
provider-type detection. -/
def containsStrCI (pat s : String) : Bool :=
  containsStr (jsToLower pat) (jsToLower s)

/-! ### PixelGeometry: `_getPixelDimensions` (image_generator.js:899-931)

The JS function computes
```
let h = Math.round(baseSize / Math.sqrt(ratioVal));
let w = Math.round(h * ratioVal);
w = Math.round(w / 8) * 8;
h = Math.round(h / 8) * 8;
```
after parsing `aspectRatio` as `"W:H"`.  `Math.round x = ⌊x + 1/2⌋` for
finite `x`; `Math.round Infinity = Infinity`; `Math.round NaN = NaN`. -/

/-- Result of a JS floating-point computation as observed by the claims:
a finite integer (all the source's results of `Math.round` are integers),
positive infinity, or NaN. -/
inductive JSNum where
  | nan
  | inf
  | fin (z : ℤ)
deriving DecidableEq, Repr

/-- Splitting a character list at every occurrence of the separator, the model
of JS `s.split(":")` (the source only ever splits on the single character
`":"`).  `split` always returns at least one group, and one extra group per
separator occurrence. -/
def splitOnChar (sep : Char) : List Char → List (List Char)
  | [] => [[]]
  | c :: rest =>
    let r := splitOnChar sep rest
    if c = sep then [] :: r
    else
      match r with
      | [] => [[c]]
      | g :: gs => (c :: g) :: gs

/-- Numeric value of a decimal digit character. -/
def digitVal (c : Char) : ℕ := c.toNat - 48

/-- Model of the JS `Number(s)` conversion on the grammar reachable here:
`Number("") = 0`, a digit string parses to its value, anything else is `NaN`
(modelled as `none`).  Signs, decimals and whitespace never occur in the
aspect-ratio strings the plugin passes, so they are not modelled. -/
def jsNumberL (l : List Char) : Option Nat :=
  if l = [] then some 0
  else if l.all Char.isDigit then some (l.foldl (fun a c => a * 10 + digitVal c) 0)
  else none

/-- Model of JS `Math.round` on finite values: round half toward positive
infinity, `⌊q + 1/2⌋`. -/
def jsRound (q : ℚ) : ℤ := ⌊q + 1 / 2⌋

/-- Parsing of the aspect-ratio string in `_getPixelDimensions`:
`ratioVal` starts at `1.0`; if the string contains `":"` it is split and the
first two components converted with `Number`; if the second is `!== 0` then
`ratioVal = w / h`.  The ratio is kept as the exact pair `(w, h)` instead of
the float quotient; `(1, 1)` is the default ratio `1.0`.  `none` models
`ratioVal = NaN` (note `NaN !== 0` is true in JS, so a NaN denominator still
overwrites the default, and any division involving NaN is NaN). -/
def parseRatio (aspectRatio : String) : Option (ℕ × ℕ) :=
  if containsStr ":" aspectRatio then
    match (splitOnChar ':' aspectRatio.toList).map jsNumberL with
    | w :: h :: _ =>
      match h with
      | none => none
      | some 0 => some (1, 1)
      | some hv =>
        match w with
        | none => none
        | some wv => some (wv, hv)
    | _ => some (1, 1)
  else some (1, 1)

/-- Binary search for the integer square root of `n` on the interval
`[lo, hi]`, with explicit fuel so that the kernel can evaluate it.
Invariant (see `sqrtBS_spec`): `lo² ≤ n < (hi+1)²`. -/
def sqrtBS (n : ℕ) : ℕ → ℕ → ℕ → ℕ
  | 0, lo, _ => lo
  | fuel + 1, lo, hi =>
    if hi ≤ lo then lo
    else
      let mid := (lo + hi + 1) / 2
      if mid * mid ≤ n then sqrtBS n fuel mid hi else sqrtBS n fuel lo (mid - 1)

/-- Integer square root `⌊√n⌋`, kernel-computable (the fuel `n` always
suffices since the search interval halves each step). -/
def isqrt (n : ℕ) : ℕ := sqrtBS n n 0 n

/-- Exact value of `Math.round (base / Math.sqrt (num / den))` for
`num > 0`, computed with integer arithmetic:
`base/√(num/den) = base·√(num·den)/num`, hence
`⌊base/√(num/den) + 1/2⌋ = ⌊(√(4·base²·num·den) + num)/(2·num)⌋`, and the
floor of `(√M + a)/c` equals `(⌊√M⌋ + a)/c` with natural division.
`roundDivSqrt_eq` below proves this agrees with the real-number formula
of the source. -/
def roundDivSqrt (base num den : ℕ) : ℕ :=
  (isqrt (4 * base ^ 2 * num * den) + num) / (2 * num)

/-- Exact value of `Math.round (a / b)` for naturals with `b > 0`:
`⌊a/b + 1/2⌋ = ⌊(2a+b)/(2b)⌋` (proved against the rational formula in
`jsRoundDiv_eq`). -/
def jsRoundDiv (a b : ℕ) : ℕ := (2 * a + b) / (2 * b)

/-- Model of `_getPixelDimensions(resolution, aspectRatio)`, returning the
`(width, height)` pair.  The finite branch computes, for ratio `rw/rh`,
`h1 = Math.round(base/√(rw/rh))`, `w1 = Math.round(h1·rw/rh)`, then rounds
each to the nearest multiple of 8.  Non-finite propagation for the
degenerate ratio `0` (`rw = 0`, as in `"0:1"`):
`h = Math.round(base/√0) = Math.round(Infinity) = Infinity`,
`w = Math.round(Infinity · 0) = Math.round(NaN) = NaN`, and the final
multiple-of-8 rounding keeps `w = NaN`, `h = Infinity`.  A `NaN` ratio makes
every later value `NaN`. -/
def getPixelDimensions (resolution aspectRatio : String) : JSNum × JSNum :=
  let baseSize : ℕ :=
    let b1 := if containsStr "2K" resolution then 2048 else 1024
    if containsStr "4K" resolution then 4096 else b1
  match parseRatio aspectRatio with
  | none => (JSNum.nan, JSNum.nan)
  | some (rw, rh) =>
    if rw = 0 then
      (JSNum.nan, JSNum.inf)
    else
      let h1 : ℕ := roundDivSqrt baseSize rw rh
      let w1 : ℕ := jsRoundDiv (h1 * rw) rh
      (JSNum.fin (jsRoundDiv w1 8 * 8), JSNum.fin (jsRoundDiv h1 8 * 8))

/-- The property claimed of each component of the pixel-geometry result:
a strictly positive integer divisible by 8. -/
def goodDim : JSNum → Bool
  | JSNum.fin z => decide (0 < z) && decide ((8 : ℤ) ∣ z)
  | _ => false

/-! ### ProviderClassifier: `_detectProviderType` (image_generator.js:138-157) -/

/-- JS truthiness of a string value (`""`, `null` and `undefined` are falsy;
`none` models `null`/`undefined`). -/
def isTruthy : Option String → Bool
  | none => false
  | some s => s ≠ ""

/-- JS truthiness of a plain string. -/
def isTruthyS (s : String) : Bool := s ≠ ""

/-- The provider protocol types of the source (the spec's five families;
`gptgod` and `openrouter` are both the spec's `chat-completions` family). -/
inductive PType where
  | google_official
  | seedream
  | gptgod
  | openrouter
  | comfyui
  | yunwu
deriving DecidableEq, Repr

/-- Provider profile as consumed by `generate`; missing fields are modelled
by the empty string (falsy, like `undefined` in the source's checks). -/
structure Provider where
  name : String
  apiKey : String
  baseUrl : String
  model : String
deriving DecidableEq, Repr

/-- Model of `_detectProviderType`: case-insensitive substring matching on
name and base URL, in the source's priority order, defaulting to `yunwu`. -/
def detectProviderType (p : Provider) : PType :=
  let nameLower := jsToLower p.name
  let urlLower := jsToLower p.baseUrl
  if containsStr "generativelanguage.googleapis.com" urlLower then .google_official
  else if containsStr "seedream" nameLower || containsStr "ark.cn-beijing.volces.com" urlLower then .seedream
  else if containsStr "gptgod" nameLower || containsStr "gptgod" urlLower then .gptgod
  else if containsStr "openrouter" nameLower || containsStr "openrouter.ai" urlLower then .openrouter
  else if containsStr "comfyui" nameLower || containsStr ":8188" urlLower then .comfyui
  else .yunwu

/-! ### PayloadBuilder: the synchronous families
(`_buildGooglePayload`, `_buildYunwuPayload`, `_buildGPTGodPayload`,
`_buildOpenRouterPayload`, `_buildSeedreamPayload`,
image_generator.js:212-608) -/

/-- Generation mode. -/
inductive GenMode where
  | text2img
  | imgedit
deriving DecidableEq, Repr

/-- An inline base64 image part (`inlineData` in the Gemini-style payloads). -/
structure InlineImage where
  mimeType : String
  data : String
deriving DecidableEq, Repr

/-- One element of the `parts` array of a Gemini-style payload. -/
inductive GeminiPart where
  | text (s : String)
  | inline (img : InlineImage)
deriving DecidableEq, Repr

/-- A Gemini-style payload (`contents[0].parts` plus the generation config).
Shared by the `google_official` and `yunwu` builders, which produce the same
structure under different JSON field spellings (`response_modalities` versus
`responseModalities`, `google_search` versus `googleSearch`); the spelling
differences are not observable in the modelled fields. -/
structure GeminiPayload where
  parts : List GeminiPart
  responseModalities : List String
  aspectRatio : String
  imageSize : Option String
  searchTool : Bool
deriving DecidableEq, Repr

/-- The synthetic multi-image system prompt built by the Gemini-style
builders: the reference image (when present) is enumerated first as
`Image 1`, then the source image with the next index. -/
def multiImageSystemPrompt (sourceImage referenceImage : Option String) : String :=
  let s1 : String :=
    if isTruthy referenceImage then
      "Image 1 is the Reference Layer (use this for style/content reference). "
    else ""
  if isTruthy sourceImage then
    let idx : String := if isTruthy referenceImage then "2" else "1"
    s1 ++ "Image " ++ idx ++ " is the Source Layer (the content to be modified). "
  else s1

/-- The image parts appended by every multi-image branch, always in
Reference-then-Source order, as webp inline data. -/
def multiImageInlineParts (sourceImage referenceImage : Option String) : List GeminiPart :=
  (match referenceImage with
   | some r => if isTruthyS r then [GeminiPart.inline ⟨"image/webp", r⟩] else []
   | none => []) ++
  (match sourceImage with
   | some s => if isTruthyS s then [GeminiPart.inline ⟨"image/webp", s⟩] else []
   | none => [])

/-- Model of `_buildGooglePayload` (and `_buildYunwuPayload`, which differs
only in JSON field spellings): multi-image mode puts one text part holding
`System Instruction: <roles>\n\nUser Prompt: <prompt>` first, followed by the
inline images in Reference-then-Source order; single-image edit puts the
image first and the bare prompt after it; text-to-image is just the prompt. -/
def buildGooglePayload (prompt aspectRatio : String) (resolution : Option String)
    (mode : GenMode) (searchWeb : Bool)
    (inputImage sourceImage referenceImage : Option String) : GeminiPayload :=
  let parts : List GeminiPart :=
    if isTruthy sourceImage || isTruthy referenceImage then
      GeminiPart.text ("System Instruction: " ++
          multiImageSystemPrompt sourceImage referenceImage ++
          "\n\nUser Prompt: " ++ prompt) ::
        multiImageInlineParts sourceImage referenceImage
    else if mode = GenMode.imgedit && isTruthy inputImage then
      [GeminiPart.inline ⟨"image/png", inputImage.getD ""⟩, GeminiPart.text prompt]
    else
      [GeminiPart.text prompt]
  { parts := parts
    responseModalities := ["IMAGE"]
    aspectRatio := aspectRatio
    imageSize := resolution
    searchTool := searchWeb }

/-- Model of `_buildYunwuPayload`: identical structure to the google builder
(the source duplicates the code with camelCase JSON keys and modality string
`"image"`). -/
def buildYunwuPayload (prompt aspectRatio : String) (resolution : Option String)
    (mode : GenMode) (searchWeb : Bool)
    (inputImage sourceImage referenceImage : Option String) : GeminiPayload :=
  { buildGooglePayload prompt aspectRatio resolution mode searchWeb
      inputImage sourceImage referenceImage with
    responseModalities := ["image"] }

/-- One element of an OpenAI-style `content` array. -/
inductive CCPart where
  | text (s : String)
  | imageUrl (url : String)
deriving DecidableEq, Repr

/-- A chat-completions payload (GPTGod). -/
structure GPTGodPayload where
  model : String
  content : List CCPart
  stream : Bool
deriving DecidableEq, Repr

/-- Model of `_buildGPTGodPayload`.  Note the multi-image branch appends the
`[Attached Image N: …]` role annotations AFTER the prompt text
(`finalPrompt + imageAnnotations`). -/
def buildGPTGodPayload (prompt aspectRatio : String) (resolution : Option String)
    (provider : Provider) (mode : GenMode) (searchWeb : Bool)
    (inputImage sourceImage referenceImage : Option String) : GPTGodPayload :=
  let model :=
    if containsStr "gptgod.online" provider.baseUrl &&
        provider.model = "gemini-3-pro-image-preview" then
      if resolution = some "2K" then "gemini-3-pro-image-preview-2k"
      else if resolution = some "4K" then "gemini-3-pro-image-preview-4k"
      else provider.model
    else provider.model
  let finalPrompt :=
    if isTruthyS aspectRatio && aspectRatio ≠ "1:1" then
      prompt ++ "\nAspect Ratio: " ++ aspectRatio
    else prompt
  let content : List CCPart :=
    if isTruthy sourceImage || isTruthy referenceImage then
      let annRef : String :=
        if isTruthy referenceImage then "\n[Attached Image 1: Reference]" else ""
      let annSrc : String :=
        if isTruthy sourceImage then
          let idx : String := if isTruthy referenceImage then "2" else "1"
          "\n[Attached Image " ++ idx ++ ": Source]"
        else ""
      CCPart.text (finalPrompt ++ annRef ++ annSrc) ::
        ((match referenceImage with
          | some r => if isTruthyS r then
              [CCPart.imageUrl ("data:image/webp;base64," ++ r)] else []
          | none => []) ++
         (match sourceImage with
          | some s => if isTruthyS s then
              [CCPart.imageUrl ("data:image/webp;base64," ++ s)] else []
          | none => []))
    else if mode = GenMode.imgedit && isTruthy inputImage then
      [CCPart.imageUrl ("data:image/png;base64," ++ inputImage.getD ""),
       CCPart.text finalPrompt]
    else
      [CCPart.text finalPrompt]
  { model := model, content := content, stream := false }

/-- The `content` field of an OpenRouter message: a plain string in
text-to-image mode, an array of parts otherwise. -/
inductive ORContent where
  | plain (s : String)
  | parts (l : List CCPart)
deriving DecidableEq, Repr

/-- An OpenRouter payload. -/
structure ORPayload where
  model : String
  content : ORContent
  modalities : List String
  aspectRatio : String
  imageSize : Option String
deriving DecidableEq, Repr

/-- Model of `_buildOpenRouterPayload`: the multi-image branch pushes the
bare prompt text first (no synthetic role instruction is generated), then
the images in Reference-then-Source order. -/
def buildOpenRouterPayload (prompt aspectRatio : String) (resolution : Option String)
    (provider : Provider) (mode : GenMode) (searchWeb : Bool)
    (inputImage sourceImage referenceImage : Option String) : ORPayload :=
  let content : ORContent :=
    if isTruthy sourceImage || isTruthy referenceImage then
      ORContent.parts
        (CCPart.text prompt ::
          ((match referenceImage with
            | some r => if isTruthyS r then
                [CCPart.imageUrl ("data:image/webp;base64," ++ r)] else []
            | none => []) ++
           (match sourceImage with
            | some s => if isTruthyS s then
                [CCPart.imageUrl ("data:image/webp;base64," ++ s)] else []
            | none => [])))
    else if mode = GenMode.imgedit && isTruthy inputImage then
      ORContent.parts
        [CCPart.imageUrl ("data:image/png;base64," ++ inputImage.getD ""),
         CCPart.text prompt]
    else
      ORContent.plain prompt
  { model := provider.model
    content := content
    modalities := ["image", "text"]
    aspectRatio := aspectRatio
    imageSize := resolution }

/-- Model of `_getAspectRatioDescription`: fixed ratio-to-description table
with a generic fallback. -/
def getAspectRatioDescription (aspectRatio : String) : String :=
  if aspectRatio = "16:9" then "Aspect ratio 16:9, wide landscape format"
  else if aspectRatio = "9:16" then "Aspect ratio 9:16, tall portrait format"
  else if aspectRatio = "4:3" then "Aspect ratio 4:3, landscape format"
  else if aspectRatio = "3:4" then "Aspect ratio 3:4, portrait format"
  else if aspectRatio = "21:9" then "Aspect ratio 21:9, ultra-wide format"
  else if aspectRatio = "3:2" then "Aspect ratio 3:2, landscape format"
  else if aspectRatio = "2:3" then "Aspect ratio 2:3, portrait format"
  else if aspectRatio = "1:1" then "Aspect ratio 1:1, square format"
  else "Aspect ratio " ++ aspectRatio

/-- A Seedream payload: at most ONE transmitted image (`image` field). -/
structure SeedreamPayload where
  model : String
  prompt : String
  size : String
  watermark : Bool
  image : Option String
deriving DecidableEq, Repr

/-- Model of `_buildSeedreamPayload`.  In multi-image mode only the source
image is transmitted; a present reference image is acknowledged solely by
prefixing `[Style Reference: See attached image] ` to the prompt. -/
def buildSeedreamPayload (prompt aspectRatio : String) (resolution : Option String)
    (provider : Provider) (mode : GenMode) (searchWeb : Bool)
    (inputImage sourceImage referenceImage : Option String) : SeedreamPayload :=
  let finalPrompt :=
    if isTruthyS aspectRatio && aspectRatio ≠ "1:1" then
      prompt ++ ". " ++ getAspectRatioDescription aspectRatio
    else prompt
  let finalSize :=
    let r := match resolution with
      | some s => if isTruthyS s then s else "2K"
      | none => "2K"
    let modelLower := jsToLower provider.model
    if (containsStr "4-5" modelLower || containsStr "4.5" modelLower) && r = "1K" then "2K"
    else r
  if mode = GenMode.imgedit && isTruthy inputImage then
    { model := provider.model, prompt := finalPrompt, size := finalSize,
      watermark := false,
      image := some ("data:image/png;base64," ++ inputImage.getD "") }
  else if isTruthy sourceImage then
    let prompt2 :=
      if isTruthy referenceImage then
        "[Style Reference: See attached image] " ++ finalPrompt
      else finalPrompt
    { model := provider.model, prompt := prompt2, size := finalSize,
      watermark := false,
      image := some ("data:image/webp;base64," ++ sourceImage.getD "") }
  else if isTruthy referenceImage then
    { model := provider.model, prompt := finalPrompt, size := finalSize,
      watermark := false,
      image := some ("data:image/webp;base64," ++ referenceImage.getD "") }
  else
    { model := provider.model, prompt := finalPrompt, size := finalSize,
      watermark := false, image := none }

/-! ### JobPoller: the history-polling loop of `_processComfyUIResponse`
(image_generator.js:1116-1151) -/

/-- One image descriptor in a ComfyUI history output
(`filename`/`subfolder`/`type`). -/
structure ImageInfo where
  filename : String
  subfolder : String
  itype : String
deriving DecidableEq, Repr

/-- The outputs object of a finished job: node-id to images list, in JS
object key order.  An empty `images` list also models a node without an
`images` field (both are skipped identically by the scan). -/
structure NodeOutput where
  nodeId : String
  images : List ImageInfo
deriving DecidableEq, Repr

/-- What one poll of the `/history/promptId` endpoint observes.
`fetchError` is a rejected fetch (caught by the loop's `try`), `notOk` a
non-2xx response, `absent` a 2xx response whose body has no entry for the
prompt id, and `present` an entry with the given outputs. -/
inductive PollStep where
  | fetchError
  | notOk
  | absent
  | present (outputs : List NodeOutput)
deriving DecidableEq, Repr

/-- Is this poll step a `present` report? -/
def PollStep.isPresent : PollStep → Bool
  | .present _ => true
  | _ => false

/-- The scan over `outputs` inside the loop: the first node whose `images`
array is nonempty provides `outputImages`. -/
def findImages : List NodeOutput → Option (List ImageInfo)
  | [] => none
  | o :: rest => if o.images ≠ [] then some o.images else findImages rest

/-- The polling loop, driven by an oracle giving the outcome of the poll at
each attempt index.  Returns the final `outputImages` value together with
the number of polls performed.  Mirrors the JS loop: each iteration performs
one poll; a `present` report breaks out of the loop immediately (whether or
not any images were found); every other outcome lets `retries` advance. -/
def pollAux (oracle : ℕ → PollStep) : ℕ → ℕ → Option (List ImageInfo) × ℕ
  | _, 0 => (none, 0)
  | r, fuel + 1 =>
    match oracle r with
    | PollStep.present outputs => (findImages outputs, 1)
    | _ =>
      let rest := pollAux oracle (r + 1) fuel
      (rest.1, rest.2 + 1)

/-- The fixed retry budget of the loop (`maxRetries = 300`, one poll per
second, bounding the wait to 5 minutes). -/
def maxRetries : ℕ := 300

/-- The whole polling phase: start at attempt 0 with the full retry budget. -/
def pollHistory (oracle : ℕ → PollStep) : Option (List ImageInfo) × ℕ :=
  pollAux oracle 0 maxRetries

/-! ### ResponseParser: `_processResponse` and the per-family parsers
(image_generator.js:952-1244) -/

/-- First `n` characters of a string (JS `substring(0, n)`). -/
def takeStr (n : ℕ) (s : String) : String := String.mk (s.toList.take n)

/-- Whitespace recognizer for the model of JS `trim`. -/
def isWS (c : Char) : Bool := c = ' ' || c = '\t' || c = '\n' || c = '\r'

/-- Model of JS `String.prototype.trim` (leading/trailing whitespace). -/
def jsTrim (s : String) : String :=
  String.mk (((s.toList.dropWhile isWS).reverse.dropWhile isWS).reverse)

/-- Model of `pat.isPrefixOf s` on strings (JS `startsWith`). -/
def startsWithStr (pat s : String) : Bool := pat.toList.isPrefixOf s.toList

/-- Inline image data in a Gemini-style response part (`inlineData`). -/
structure RInline where
  data : String
  mimeType : Option String
deriving DecidableEq, Repr

/-- One part of a Gemini-style response. -/
structure RPart where
  text : Option String
  inlineData : Option RInline
deriving DecidableEq, Repr

/-- The `content` object of a response candidate.  The source reads
`candidates[0].content.parts` (with optional chaining in the diagnostic
extractor); a missing `parts` array is modelled as the empty list, which the
source treats identically (nothing to iterate, empty text). -/
structure RContent where
  parts : List RPart
deriving DecidableEq, Repr

/-- One candidate of a Gemini-style response. -/
structure RCandidate where
  content : RContent
deriving DecidableEq, Repr

/-- One entry of an OpenRouter `message.images` array; `url` models
`image_url.url`, `none` when either level is missing or empty. -/
structure ORImage where
  url : Option String
deriving DecidableEq, Repr

/-- The message of a chat-completions/OpenRouter response choice.  `content`
is `none` when absent or not a string; `images` is `[]` when absent. -/
structure RMessage where
  content : Option String
  images : List ORImage
deriving DecidableEq, Repr

/-- One choice of a chat-completions-style response. -/
structure RChoice where
  message : RMessage
deriving DecidableEq, Repr

/-- One element of a Seedream response `data` array. -/
structure RDataItem where
  url : Option String
deriving DecidableEq, Repr

/-- The `error` field of a response: either a string or an object whose
`message` property may be absent; `stringified` carries the
`JSON.stringify(error)` fallback text used when `message` is falsy. -/
inductive JsError where
  | str (s : String)
  | obj (message : Option String) (stringified : String)
deriving DecidableEq, Repr

/-- A parsed response body, with one optional field per shape the source
probes.  `stringified` carries `JSON.stringify(responseData)` for the
truncated raw fallback of the diagnostic extractor (serialization itself is
not modelled). -/
structure ResponseData where
  candidates : Option (List RCandidate)
  choices : Option (List RChoice)
  error : Option JsError
  data : Option (List RDataItem)
  image : Option String
  images : Option (List String)
  prompt_id : Option String
  stringified : String
deriving DecidableEq, Repr

/-- A response body with every field absent; concrete bodies override the
relevant fields. -/
def emptyResponse : ResponseData :=
  { candidates := none, choices := none, error := none, data := none,
    image := none, images := none, prompt_id := none, stringified := "" }

/-- Model of `_extractTextFromParts`: keep the truthy `text` fields, join
with a single space, trim. -/
def extractTextFromParts (parts : List RPart) : String :=
  jsTrim (String.intercalate " "
    (parts.filterMap fun p =>
      match p.text with
      | some t => if t ≠ "" then some t else none
      | none => none))

/-- Model of `_extractServerMessage`: probe, in order, a Gemini-style text
reply, a chat-completions text reply, a structured `error` field (with the
two Seedream-specific Chinese hint branches), then fall back to the
truncated raw body. -/
def extractServerMessage (rd : ResponseData) : String :=
  let geminiMsg : Option String :=
    match rd.candidates with
    | some (c :: _) =>
      let t := extractTextFromParts c.content.parts
      if t ≠ "" then some ("Server message: " ++ t) else none
    | _ => none
  match geminiMsg with
  | some m => m
  | none =>
    let choiceMsg : Option String :=
      match rd.choices with
      | some (c :: _) =>
        match c.message.content with
        | some s => if s ≠ "" then some ("Server message: " ++ s) else none
        | none => none
      | _ => none
    match choiceMsg with
    | some m => m
    | none =>
      match rd.error with
      | some e =>
        let errorMsg :=
          match e with
          | .str s => s
          | .obj msg raw =>
            match msg with
            | some m => if m ≠ "" then m else raw
            | none => raw
        if containsStr "AuthenticationError" errorMsg || containsStr "API key" errorMsg then
          "认证错误: " ++ errorMsg ++
            "\n\n请检查:\n1. API Key 是否正确填写\n2. 是否选择了正确的 Provider (Seedream 4.5)\n3. Base URL 是否为: https://ark.cn-beijing.volces.com/api/v3/images/generations"
        else if containsStr "size" errorMsg &&
            (containsStr "not supported" errorMsg || containsStr "not valid" errorMsg) then
          "分辨率参数错误: " ++ errorMsg ++
            "\n\n提示:\n- Seedream 4.5 仅支持 2K 和 4K，不支持 1K\n- 请在插件中选择 2K 或 4K 分辨率\n- 或使用 Seedream 4.0 模型（支持 1K）"
        else
          "Error: " ++ errorMsg
      | none =>
        let jsonStr := rd.stringified
        "Response: " ++
          (if 200 < jsonStr.length then takeStr 200 jsonStr ++ "..." else jsonStr)

/-- Model of `_getExtensionFromMimeType`. -/
def getExtensionFromMimeType (mimeType : String) : String :=
  if containsStr "webp" mimeType then "webp"
  else if containsStr "jpeg" mimeType || containsStr "jpg" mimeType then "jpg"
  else "png"

/-- The normalized terminal action of a parser: save inline base64 data,
download a remote URL, or fetch a ComfyUI image descriptor through the view
endpoint. -/
inductive GenOutcome where
  | savedBase64 (data : String) (ext : String)
  | downloaded (url : String)
  | comfyImage (info : ImageInfo)
deriving DecidableEq, Repr

/-- First part carrying `inlineData`, as scanned by
`_processGeminiResponse`. -/
def firstInline : List RPart → Option RInline
  | [] => none
  | p :: rest =>
    match p.inlineData with
    | some i => some i
    | none => firstInline rest

/-- Model of `_processGeminiResponse`. -/
def processGeminiResponse (rd : ResponseData) : Except String GenOutcome :=
  match rd.candidates with
  | some (c :: _) =>
    let parts := c.content.parts
    match firstInline parts with
    | some inl =>
      let mt :=
        match inl.mimeType with
        | some m => if m ≠ "" then m else "image/png"
        | none => "image/png"
      .ok (.savedBase64 inl.data (getExtensionFromMimeType mt))
    | none =>
      let textContent := extractTextFromParts parts
      if textContent ≠ "" then .error ("No image. AI response: " ++ textContent)
      else .error "No image generated"
  | _ => .error ("No image generated. " ++ extractServerMessage rd)

/-- Abstraction of the two URL-extraction regexes of
`_processGPTGodResponse` (a markdown image link, or a plain image URL; the
second is case-insensitive).  Both regexes can only match a content that
contains the substring `"http"` (in some letter case), so the model is exact
on contents without it — the only region the theorems use; on contents with
it, a successful match is over-approximated by returning the content. -/
def gptgodUrlMatch (content : String) : Option String :=
  if containsStrCI "http" content then some content else none

/-- Model of `_processGPTGodResponse`.  The unreachable case of an absent
`message.content` (where the source would raise a host TypeError from
`content.match`) is folded into the diagnostic error path. -/
def processGPTGodResponse (rd : ResponseData) : Except String GenOutcome :=
  let imageUrl : Option String :=
    if isTruthy rd.image then rd.image
    else
      match rd.images with
      | some (u :: _) => some u
      | _ =>
        match rd.choices with
        | some (ch :: _) =>
          match ch.message.content with
          | some content => gptgodUrlMatch content
          | none => none
        | _ => none
  match imageUrl with
  | some u =>
    if u ≠ "" then .ok (.downloaded u)
    else .error ("No image generated. " ++ extractServerMessage rd)
  | none => .error ("No image generated. " ++ extractServerMessage rd)

/-- The base64 payload of a data URL: the portion after the first
`";base64,"` (JS `url.split(";base64,")[1]`; the separator is present in
every URL that reaches this helper). -/
def dataUrlBase64 (url : String) : String :=
  match findIdx ";base64,".toList url.toList with
  | some i => String.mk (url.toList.drop (i + 8))
  | none => ""

/-- The MIME type of a data URL (the regex `data:(image\x2f[^;]+)` capture):
the characters after `"data:"` up to the first `';'`. -/
def dataUrlMime (url : String) : String :=
  String.mk ((url.toList.drop 5).takeWhile (· ≠ ';'))

/-- Model of `_processOpenRouterResponse`.  Note the source's condition
`!responseData.choices || !responseData.choices.length === 0` is always
false for a present `choices` array (even an empty one, `true === 0` being
false), so an empty array reaches `choices[0].message` and raises a host
TypeError, modelled by the fixed message below. -/
def processOpenRouterResponse (rd : ResponseData) : Except String GenOutcome :=
  match rd.choices with
  | none => .error ("No image generated. " ++ extractServerMessage rd)
  | some [] => .error "Cannot read properties of undefined (reading 'message')"
  | some (c :: _) =>
    let message := c.message
    let viaImages : Option GenOutcome :=
      match message.images with
      | imageInfo :: _ =>
        match imageInfo.url with
        | some url =>
          if url ≠ "" then
            if startsWithStr "data:image" url then
              some (.savedBase64 (dataUrlBase64 url)
                (getExtensionFromMimeType (dataUrlMime url)))
            else some (.downloaded url)
          else none
        | none => none
      | [] => none
    match viaImages with
    | some out => .ok out
    | none => .error ("No image generated. " ++ extractServerMessage rd)

/-- Model of `_processSeedreamResponse`. -/
def processSeedreamResponse (rd : ResponseData) : Except String GenOutcome :=
  match rd.data with
  | some (d :: _) =>
    match d.url with
    | some u =>
      if u ≠ "" then .ok (.downloaded u)
      else .error "No image URL in Seedream response"
    | none => .error "No image URL in Seedream response"
  | _ => .error ("No image generated. " ++ extractServerMessage rd)

/-- Model of `_processComfyUIResponse`: check `prompt_id`, run the polling
loop, and either hand the first image descriptor to the view-endpoint
download or raise the fixed timeout error.  Neither error path consults
`_extractServerMessage`. -/
def processComfyUIResponse (rd : ResponseData) (oracle : ℕ → PollStep) :
    Except String GenOutcome :=
  match rd.prompt_id with
  | none => .error "ComfyUI did not return a prompt_id"
  | some pid =>
    if pid = "" then .error "ComfyUI did not return a prompt_id"
    else
      match (pollHistory oracle).1 with
      | some (img :: _) => .ok (.comfyImage img)
      | _ => .error "ComfyUI generation timed out or returned no images."

/-- Model of `_processResponse`: dispatch on the detected provider type. -/
def processResponse (rd : ResponseData) (ptype : PType) (oracle : ℕ → PollStep) :
    Except String GenOutcome :=
  match ptype with
  | .google_official => processGeminiResponse rd
  | .yunwu => processGeminiResponse rd
  | .gptgod => processGPTGodResponse rd
  | .openrouter => processOpenRouterResponse rd
  | .seedream => processSeedreamResponse rd
  | .comfyui => processComfyUIResponse rd oracle

/-! ### GraphWorkflowBuilder: an object heap for `_buildComfyUIPayload`
(image_generator.js:614-732, workflow_templates.js)

The source's workflow templates are shared module-level objects; the builder
deep-copies them with `JSON.parse(JSON.stringify(...))` and then mutates the
copy through property assignments and one `delete`.  To make aliasing and
in-place mutation observable, JS objects are modelled by an explicit heap
(a list of objects indexed by address); JSON values are modelled by trees
(`JTree`), `JSON.stringify` by `readTree` (heap graph to tree) and
`JSON.parse` by `storeTree` (tree to freshly allocated heap objects).
JS arrays such as the node references `["43", 0]` are immutable values in
the model: no code mutates an array in place. -/

/-- A heap value: JSON primitive, immutable array, or reference to a heap
object.  Numbers carry `JSNum` so that a non-finite injected dimension is
representable. -/
inductive HVal where
  | null
  | num (n : JSNum)
  | str (s : String)
  | arr (elems : List HVal)
  | ref (addr : ℕ)
deriving Repr

/-- A heap object: an insertion-ordered association list of fields. -/
abbrev HObj := List (String × HVal)

/-- The heap: object at address `a` is the list entry at index `a`;
allocation appends. -/
abbrev Heap := List HObj

/-- A JSON document tree. -/
inductive JTree where
  | null
  | num (n : JSNum)
  | str (s : String)
  | arr (elems : List JTree)
  | obj (fields : List (String × JTree))
deriving Repr

/-- A finite integer tree leaf. -/
def JTree.int (z : ℤ) : JTree := JTree.num (JSNum.fin z)

/-- A node-reference array `[nodeId, slot]` as it appears in the workflow
templates. -/
def nref (nodeId : String) (slot : ℤ) : JTree :=
  JTree.arr [JTree.str nodeId, JTree.int slot]

mutual

/-- Model of `JSON.parse`: allocate a tree into the heap, returning the new
heap and the value standing for the root.  Objects get fresh addresses; the
old heap is only ever appended to. -/
def storeTree (h : Heap) : JTree → Heap × HVal
  | .null => (h, HVal.null)
  | .num n => (h, HVal.num n)
  | .str s => (h, HVal.str s)
  | .arr es =>
    let p := storeTreeList h es
    (p.1, HVal.arr p.2)
  | .obj fs =>
    let p := storeTreeFields h fs
    (p.1 ++ [p.2], HVal.ref p.1.length)

/-- Allocate a list of trees left to right. -/
def storeTreeList (h : Heap) : List JTree → Heap × List HVal
  | [] => (h, [])
  | t :: ts =>
    let p := storeTree h t
    let q := storeTreeList p.1 ts
    (q.1, p.2 :: q.2)

/-- Allocate the field values of an object left to right. -/
def storeTreeFields (h : Heap) : List (String × JTree) → Heap × HObj
  | [] => (h, [])
  | (k, t) :: fs =>
    let p := storeTree h t
    let q := storeTreeFields p.1 fs
    (q.1, (k, p.2) :: q.2)

end

/-- Model of `JSON.stringify` (up to the serialization itself): read the
object graph below a value back into a tree.  `fuel` bounds the depth; every
use gives it more than the template depth, so the `0` sentinel is never
reached. -/
def readTree (h : Heap) : ℕ → HVal → JTree
  | 0, _ => JTree.null
  | _ + 1, HVal.null => JTree.null
  | _ + 1, HVal.num n => JTree.num n
  | _ + 1, HVal.str s => JTree.str s
  | fuel + 1, HVal.arr es => JTree.arr (es.map (readTree h fuel))
  | fuel + 1, HVal.ref a =>
    JTree.obj ((h.getD a []).map fun kv => (kv.1, readTree h fuel kv.2))

/-- Depth budget for `readTree`; the workflow graphs have depth 5. -/
def readFuel : ℕ := 8

/-- Property assignment on an object: update an existing key in place
(keeping its position, as JS does), append a new key at the end. -/
def setFieldObj (o : HObj) (k : String) (v : HVal) : HObj :=
  if o.any (fun kv => kv.1 = k) then
    o.map fun kv => if kv.1 = k then (k, v) else kv
  else o ++ [(k, v)]

/-- Model of the JS `delete` operator on an object key. -/
def delFieldObj (o : HObj) (k : String) : HObj :=
  o.filter fun kv => kv.1 ≠ k

/-- Read a field of the object at `addr`. -/
def getField (h : Heap) (addr : ℕ) (k : String) : Option HVal :=
  ((h.getD addr []).find? (fun kv => kv.1 = k)).map (·.2)

/-- Write a field of the object at `addr`. -/
def setField (h : Heap) (addr : ℕ) (k : String) (v : HVal) : Heap :=
  h.set addr (setFieldObj (h.getD addr []) k v)

/-- Delete a field of the object at `addr`. -/
def delField (h : Heap) (addr : ℕ) (k : String) : Heap :=
  h.set addr (delFieldObj (h.getD addr []) k)

/-- Model of the guarded node-input writes
`if (workflow[id] && workflow[id].inputs) workflow[id].inputs[key] = v`. -/
def setInput (h : Heap) (wfAddr : ℕ) (nodeId key : String) (v : HVal) : Heap :=
  match getField h wfAddr nodeId with
  | some (HVal.ref nAddr) =>
    match getField h nAddr "inputs" with
    | some (HVal.ref iAddr) => setField h iAddr key v
    | _ => h
  | _ => h

/-- A workflow node as a tree. -/
def mkNode (classType : String) (inputs : List (String × JTree)) : JTree :=
  JTree.obj [("class_type", JTree.str classType), ("inputs", JTree.obj inputs)]

/-- Transcription of `Z_IMAGE_TURBO_WORKFLOW` (workflow_templates.js). -/
def zImageTree : JTree := JTree.obj [
  ("9", mkNode "SaveImage" [
    ("filename_prefix", JTree.str "PSBanana_Z_Image"),
    ("images", nref "43" 0)]),
  ("39", mkNode "CLIPLoader" [
    ("clip_name", JTree.str "qwen_3_4b.safetensors"),
    ("type", JTree.str "lumina2"),
    ("device", JTree.str "default")]),
  ("40", mkNode "VAELoader" [
    ("vae_name", JTree.str "ae.safetensors")]),
  ("41", mkNode "EmptySD3LatentImage" [
    ("width", JTree.int 1024),
    ("height", JTree.int 1024),
    ("batch_size", JTree.int 1)]),
  ("42", mkNode "ConditioningZeroOut" [
    ("conditioning", nref "45" 0)]),
  ("43", mkNode "VAEDecode" [
    ("samples", nref "44" 0),
    ("vae", nref "40" 0)]),
  ("44", mkNode "KSampler" [
    ("cfg", JTree.int 1),
    ("denoise", JTree.int 1),
    ("latent_image", nref "41" 0),
    ("model", nref "47" 0),
    ("negative", nref "42" 0),
    ("positive", nref "45" 0),
    ("sampler_name", JTree.str "res_multistep"),
    ("scheduler", JTree.str "simple"),
    ("seed", JTree.int 12345),
    ("steps", JTree.int 9)]),
  ("45", mkNode "CLIPTextEncode" [
    ("clip", nref "39" 0),
    ("text", JTree.str "")]),
  ("46", mkNode "UNETLoader" [
    ("unet_name", JTree.str "z_image_turbo_bf16.safetensors"),
    ("weight_dtype", JTree.str "default")]),
  ("47", mkNode "ModelSamplingAuraFlow" [
    ("model", nref "46" 0),
    ("shift", JTree.int 3)])]

/-- Transcription of `QWEN_IMAGE_EDIT_WORKFLOW` (workflow_templates.js,
4-step Lightning version): node 78 loads the source image, node 120 the
optional reference image, and both prompt-encoding nodes 110/111 reference
node 120 through their `image2` field. -/
def qwenTree : JTree := JTree.obj [
  ("37", mkNode "UNETLoader" [
    ("unet_name", JTree.str "qwen_image_edit_2509_fp8_e4m3fn.safetensors"),
    ("weight_dtype", JTree.str "default")]),
  ("89", mkNode "LoraLoaderModelOnly" [
    ("model", nref "37" 0),
    ("lora_name", JTree.str "Qwen-Image-Edit-2509-Lightning-4steps-V1.0-bf16.safetensors"),
    ("strength_model", JTree.int 1)]),
  ("38", mkNode "CLIPLoader" [
    ("clip_name", JTree.str "qwen_2.5_vl_7b_fp8_scaled.safetensors"),
    ("type", JTree.str "qwen_image"),
    ("device", JTree.str "default")]),
  ("39", mkNode "VAELoader" [
    ("vae_name", JTree.str "qwen_image_vae.safetensors")]),
  ("66", mkNode "ModelSamplingAuraFlow" [
    ("model", nref "89" 0),
    ("shift", JTree.int 3)]),
  ("75", mkNode "CFGNorm" [
    ("model", nref "66" 0),
    ("strength", JTree.int 1)]),
  ("78", mkNode "LoadImage" [
    ("image", JTree.str "source.png"),
    ("upload", JTree.str "image")]),
  ("120", mkNode "LoadImage" [
    ("image", JTree.str "reference.png"),
    ("upload", JTree.str "image")]),
  ("93", mkNode "ImageScaleToTotalPixels" [
    ("image", nref "78" 0),
    ("upscale_method", JTree.str "lanczos"),
    ("megapixels", JTree.int 1)]),
  ("88", mkNode "VAEEncode" [
    ("pixels", nref "93" 0),
    ("vae", nref "39" 0)]),
  ("110", mkNode "TextEncodeQwenImageEditPlus" [
    ("clip", nref "38" 0),
    ("vae", nref "39" 0),
    ("image1", nref "93" 0),
    ("image2", nref "120" 0),
    ("image3", JTree.null),
    ("prompt", JTree.str "")]),
  ("111", mkNode "TextEncodeQwenImageEditPlus" [
    ("clip", nref "38" 0),
    ("vae", nref "39" 0),
    ("image1", nref "93" 0),
    ("image2", nref "120" 0),
    ("image3", JTree.null),
    ("prompt", JTree.str "")]),
  ("3", mkNode "KSampler" [
    ("cfg", JTree.int 1),
    ("denoise", JTree.int 1),
    ("latent_image", nref "88" 0),
    ("model", nref "75" 0),
    ("negative", nref "110" 0),
    ("positive", nref "111" 0),
    ("sampler_name", JTree.str "euler"),
    ("scheduler", JTree.str "simple"),
    ("seed", JTree.int 12345),
    ("steps", JTree.int 4)]),
  ("8", mkNode "VAEDecode" [
    ("samples", nref "3" 0),
    ("vae", nref "39" 0)]),
  ("60", mkNode "SaveImage" [
    ("filename_prefix", JTree.str "PSBanana_QwenEdit"),
    ("images", nref "8" 0)])]

/-- Module initialization: the Z-Image template allocated first, then the
Qwen template, into an initially empty heap.  These allocations stand for
the module-level constants of `workflow_templates.js`. -/
def zAlloc : Heap × HVal := storeTree [] zImageTree

/-- The Qwen template allocation, on top of the Z-Image one. -/
def qwenAlloc : Heap × HVal := storeTree zAlloc.1 qwenTree

/-- The module heap after loading both template constants. -/
def heap0 : Heap := qwenAlloc.1

/-- The heap root of the `Z_IMAGE_TURBO_WORKFLOW` constant. -/
def zRoot : HVal := zAlloc.2

/-- The heap root of the `QWEN_IMAGE_EDIT_WORKFLOW` constant. -/
def qwenRoot : HVal := qwenAlloc.2

/-- Recognizer for the KSampler search of `_injectParamsIntoWorkflow`. -/
def isKSamplerClass : Option HVal → Bool
  | some (HVal.str c) => c = "KSampler" || c = "KSamplerAdvanced"
  | _ => false

/-- The first node (in object key order) whose `class_type` is a KSampler,
returning its heap address. -/
def findKSampler (h : Heap) (wfAddr : ℕ) : Option ℕ :=
  ((h.getD wfAddr []).find? fun kv =>
      match kv.2 with
      | HVal.ref na => isKSamplerClass (getField h na "class_type")
      | _ => false).bind
    fun kv =>
      match kv.2 with
      | HVal.ref na => some na
      | _ => none

/-- Step 1 of `_injectParamsIntoWorkflow`: find the first KSampler, inject
the seed into its inputs, and trace the node id of its `positive`
reference.  A node without `inputs` (where the source would raise a
TypeError) is skipped. -/
def injectSeedAndTrace (h : Heap) (wfAddr : ℕ) (seed : JSNum) :
    Heap × Option String :=
  match findKSampler h wfAddr with
  | some na =>
    let h1 :=
      match getField h na "inputs" with
      | some (HVal.ref ia) => setField h ia "seed" (HVal.num seed)
      | _ => h
    let posId : Option String :=
      match getField h1 na "inputs" with
      | some (HVal.ref ia) =>
        match getField h1 ia "positive" with
        | some (HVal.arr (HVal.str pid :: _)) => some pid
        | _ => none
      | _ => none
    (h1, posId)
  | none => (h, none)

/-- The per-node body of step 2 (dimension injection into empty-latent
nodes). -/
def injectDimsStep (width height : JSNum) (acc : Heap) (kv : String × HVal) : Heap :=
  match kv.2 with
  | HVal.ref na =>
    match getField acc na "class_type" with
    | some (HVal.str c) =>
      if startsWithStr "EmptyLatentImage" c || containsStr "EmptySD3Latent" c then
        match getField acc na "inputs" with
        | some (HVal.ref ia) =>
          setField (setField acc ia "width" (HVal.num width)) ia "height" (HVal.num height)
        | _ => acc
      else acc
    | _ => acc
  | _ => acc

/-- Step 2 of `_injectParamsIntoWorkflow`: width/height into every node
whose class starts with `EmptyLatentImage` or contains `EmptySD3Latent`. -/
def injectDims (h : Heap) (wfAddr : ℕ) (width height : JSNum) : Heap :=
  (h.getD wfAddr []).foldl (injectDimsStep width height) h

/-- Step 3 of `_injectParamsIntoWorkflow`: the prompt into the traced
positive text-encode node (the negative node and checkpoint loops of the
source are deliberate no-ops). -/
def injectPositive (h : Heap) (wfAddr : ℕ) (posId : Option String)
    (prompt : String) : Heap :=
  match posId with
  | some pid =>
    match getField h wfAddr pid with
    | some (HVal.ref na) =>
      match getField h na "inputs" with
      | some (HVal.ref ia) => setField h ia "text" (HVal.str prompt)
      | _ => h
    | _ => h
  | none => h

/-- Model of `_injectParamsIntoWorkflow` for custom text-to-image
workflows: the three steps in source order. -/
def injectParams (h : Heap) (wfAddr : ℕ) (prompt : String)
    (width height seed : JSNum) : Heap :=
  let p := injectSeedAndTrace h wfAddr seed
  injectPositive (injectDims p.1 wfAddr width height) wfAddr p.2 prompt

/-- The image-edit branch of `_buildComfyUIPayload`: deep-copy the Qwen
template, upload and inject the images, inject prompt and seed. -/
def buildComfyEditHeap (h : Heap) (prompt : String) (seed : JSNum)
    (inputImage sourceImage referenceImage : Option String)
    (upload : String → Except String String) : Except String (Heap × ℕ) :=
  let p := storeTree h (readTree h readFuel qwenRoot)
  match p.2 with
  | HVal.ref wfAddr =>
    let h1 := p.1
    let primaryImage :=
      if isTruthy sourceImage then sourceImage.getD "" else inputImage.getD ""
    match upload primaryImage with
    | .error e => .error ("Failed to upload source image to ComfyUI: " ++ e)
    | .ok sourceFilename =>
      let h2 := setInput h1 wfAddr "78" "image" (HVal.str sourceFilename)
      let afterRef : Except String Heap :=
        if isTruthy referenceImage then
          match upload (referenceImage.getD "") with
          | .error e => .error ("Failed to upload reference image to ComfyUI: " ++ e)
          | .ok referenceFilename =>
            .ok (setInput h2 wfAddr "120" "image" (HVal.str referenceFilename))
        else
          .ok (delField
            (setInput (setInput h2 wfAddr "110" "image2" HVal.null)
              wfAddr "111" "image2" HVal.null)
            wfAddr "120")
      match afterRef with
      | .error e => .error e
      | .ok h3 =>
        let h4 := setInput h3 wfAddr "111" "prompt" (HVal.str prompt)
        let h5 := setInput h4 wfAddr "3" "seed" (HVal.num seed)
        .ok (h5, wfAddr)
  | _ => .error "unreachable: the copied template root is an object"

/-- The custom text-to-image branch: allocate the loaded workflow, inject
generically. -/
def buildComfyT2ICustom (h : Heap) (t : JTree) (prompt : String)
    (width height seed : JSNum) : Heap × ℕ :=
  let p := storeTree h t
  match p.2 with
  | HVal.ref wfAddr => (injectParams p.1 wfAddr prompt width height seed, wfAddr)
  | _ => (p.1, p.1.length)

/-- The built-in Z-Image text-to-image branch: deep copy, then the guarded
prompt/dimension/seed writes on nodes 45, 41 and 44. -/
def buildComfyT2IBuiltin (h : Heap) (prompt : String)
    (width height seed : JSNum) : Except String (Heap × ℕ) :=
  let p := storeTree h (readTree h readFuel zRoot)
  match p.2 with
  | HVal.ref wfAddr =>
    let h1 := p.1
    let h2 := setInput h1 wfAddr "45" "text" (HVal.str prompt)
    let h3 := setInput h2 wfAddr "41" "width" (HVal.num width)
    let h4 := setInput h3 wfAddr "41" "height" (HVal.num height)
    let h5 := setInput h4 wfAddr "44" "seed" (HVal.num seed)
    .ok (h5, wfAddr)
  | _ => .error "unreachable: the copied template root is an object"

/-- Model of `_buildComfyUIPayload`, with the ambient effects as explicit
inputs: `upload` stands for `_uploadImageToComfyUI` (base64 data in, the
server-assigned filename or a rejection message out), `customT2I` for
`fileManager.loadWorkflowFile('comfy_t2i_workflow.json')`.  Returns the
mutated heap and the payload's workflow root, or the error the source
throws when an upload fails. -/
def buildComfyUIPayloadHeap (h : Heap) (prompt : String)
    (width height seed : JSNum) (mode : GenMode)
    (inputImage sourceImage referenceImage : Option String)
    (upload : String → Except String String)
    (customT2I : Option JTree) : Except String (Heap × ℕ) :=
  if mode = GenMode.imgedit && (isTruthy inputImage || isTruthy sourceImage) then
    buildComfyEditHeap h prompt seed inputImage sourceImage referenceImage upload
  else
    match customT2I with
    | some t => .ok (buildComfyT2ICustom h t prompt width height seed)
    | none => buildComfyT2IBuiltin h prompt width height seed

mutual

/-- Does a tree contain a node-reference array `[id, slot]` to the given
node id anywhere below it? -/
def containsRefTo (id : String) : JTree → Bool
  | .arr [.str i, .num _] => i = id
  | .arr es => containsRefToList id es
  | .obj fs => containsRefToFields id fs
  | _ => false

/-- List version of `containsRefTo`. -/
def containsRefToList (id : String) : List JTree → Bool
  | [] => false
  | t :: ts => containsRefTo id t || containsRefToList id ts

/-- Field-list version of `containsRefTo`. -/
def containsRefToFields (id : String) : List (String × JTree) → Bool
  | [] => false
  | (_, t) :: fs => containsRefTo id t || containsRefToFields id fs

end

/-! ### GenerationOrchestrator: `generate` (image_generator.js:27-133)

The orchestrator is modelled with its ambient effects as explicit inputs
(an environment carrying the random seed, the upload and history-endpoint
oracles, the loaded custom workflow, and the outcome of the single dispatch
fetch) and an explicit trace of which pipeline phases ran, so that ordering
claims ("rejected before any payload builder runs") are statable.  The
debug-capture side channel (`fileManager.saveLog` etc.) and `console`
output have no effect on the result and are not modelled. -/

/-- The options record destructured at the top of `generate`. -/
structure GenOptions where
  prompt : String
  provider : Option Provider
  aspectRatio : String
  resolution : Option String
  mode : GenMode
  searchWeb : Bool
  inputImage : Option String
  sourceImage : Option String
  referenceImage : Option String

/-- Outcome of the dispatch `fetch`: a rejected promise, a non-2xx response
with its body text, or a 2xx response with a parsed JSON body. -/
inductive FetchResult where
  | netError (msg : String)
  | httpError (status : ℕ) (body : String)
  | ok (rd : ResponseData)

/-- The ambient effects consumed by one `generate` call. -/
structure Env where
  seed : JSNum
  upload : String → Except String String
  customT2I : Option JTree
  nowStr : String
  fetchResult : FetchResult
  pollOracle : ℕ → PollStep

/-- Pipeline phases, recorded in execution order. -/
inductive Event where
  | detectType
  | buildPayload
  | fetchDispatch
  | parseResponse
deriving DecidableEq, Repr

/-- The family-specific payload produced by `_buildPayload`. -/
inductive Payload where
  | gemini (p : GeminiPayload)
  | gptgod (p : GPTGodPayload)
  | openrouter (p : ORPayload)
  | seedream (p : SeedreamPayload)
  | comfy (heap : Heap) (workflowAddr : ℕ) (clientId : String)

/-- Model of `_buildPayload`: dispatch to the per-family builder.  Only the
ComfyUI builder can fail (upload errors). -/
def buildPayloadD (opts : GenOptions) (p : Provider) (ptype : PType) (env : Env) :
    Except String Payload :=
  match ptype with
  | .google_official => .ok (.gemini (buildGooglePayload opts.prompt opts.aspectRatio
      opts.resolution opts.mode opts.searchWeb opts.inputImage opts.sourceImage
      opts.referenceImage))
  | .yunwu => .ok (.gemini (buildYunwuPayload opts.prompt opts.aspectRatio
      opts.resolution opts.mode opts.searchWeb opts.inputImage opts.sourceImage
      opts.referenceImage))
  | .gptgod => .ok (.gptgod (buildGPTGodPayload opts.prompt opts.aspectRatio
      opts.resolution p opts.mode opts.searchWeb opts.inputImage opts.sourceImage
      opts.referenceImage))
  | .openrouter => .ok (.openrouter (buildOpenRouterPayload opts.prompt opts.aspectRatio
      opts.resolution p opts.mode opts.searchWeb opts.inputImage opts.sourceImage
      opts.referenceImage))
  | .seedream => .ok (.seedream (buildSeedreamPayload opts.prompt opts.aspectRatio
      opts.resolution p opts.mode opts.searchWeb opts.inputImage opts.sourceImage
      opts.referenceImage))
  | .comfyui =>
    let dims := getPixelDimensions (opts.resolution.getD "") opts.aspectRatio
    match buildComfyUIPayloadHeap heap0 opts.prompt dims.1 dims.2 env.seed opts.mode
        opts.inputImage opts.sourceImage opts.referenceImage env.upload env.customT2I with
    | .error e => .error e
    | .ok (h, a) => .ok (.comfy h a ("ps_banana_uxp_" ++ env.nowStr))

/-- Model of `generate`: validate the provider profile, detect the type,
build the payload (OUTSIDE the try/catch), then dispatch and parse inside
the try/catch that wraps any raised error with `Generation failed: `.
Returns the result together with the trace of phases that ran. -/
def generate (opts : GenOptions) (env : Env) :
    Except String GenOutcome × List Event :=
  match opts.provider with
  | none => (.error "Invalid provider configuration", [])
  | some p =>
    if p.apiKey = "" || p.baseUrl = "" then
      (.error "Invalid provider configuration", [])
    else
      let ptype := detectProviderType p
      match buildPayloadD opts p ptype env with
      | .error e => (.error e, [.detectType, .buildPayload])
      | .ok _payload =>
        match env.fetchResult with
        | .netError m =>
          (.error ("Generation failed: " ++ m),
            [.detectType, .buildPayload, .fetchDispatch])
        | .httpError status body =>
          (.error ("Generation failed: " ++ "HTTP Error: " ++ toString status ++
              " - " ++ takeStr 200 body),
            [.detectType, .buildPayload, .fetchDispatch])
        | .ok rd =>
          match processResponse rd ptype env.pollOracle with
          | .error e =>
            (.error ("Generation failed: " ++ e),
              [.detectType, .buildPayload, .fetchDispatch, .parseResponse])
          | .ok out =>
            (.ok out, [.detectType, .buildPayload, .fetchDispatch, .parseResponse])

/-! ### Observations used by the theorems -/

/-- Does a poll step report usable output (a `present` entry with at least
one node holding a nonempty `images` array)? -/
def PollStep.reportsOutput : PollStep → Bool
  | .present outputs => (findImages outputs).isSome
  | _ => false

/-- `a` occurs before `b` in `s` (comparing first occurrences; false when
either is absent). -/
def occursBefore (a b s : String) : Bool :=
  match findIdx a.toList s.toList, findIdx b.toList s.toList with
  | some i, some j => decide (i < j)
  | _, _ => false

/-- The inline image datas of a Gemini-style payload, in transmitted
order. -/
def geminiImages (p : GeminiPayload) : List String :=
  p.parts.filterMap fun
    | .inline i => some i.data
    | _ => none

/-- The image URLs of a chat-completions content array, in transmitted
order. -/
def ccImages (l : List CCPart) : List String :=
  l.filterMap fun
    | .imageUrl u => some u
    | _ => none

/-- The image URLs of an OpenRouter message content. -/
def orImages : ORContent → List String
  | .plain _ => []
  | .parts l => ccImages l

/-- The transmitted image list of a Seedream payload (its single optional
`image` field). -/
def seedreamImages (p : SeedreamPayload) : List String :=
  match p.image with
  | some i => [i]
  | none => []

/-- The first text slot of a chat-completions content array. -/
def firstTextSlot : List CCPart → Option String
  | [] => none
  | .text s :: _ => some s
  | _ :: rest => firstTextSlot rest

/-! ### Heap-invariant machinery for the frame theorems

`boundedRead h N f v` checks (computably) that reading `v` in `h` with
fuel `f` only dereferences addresses below `N`; `ValGE`/`GoodExt` say that a
value's (resp. the whole upper heap region's) references stay at or above
`N`.  Together they separate the template region of the heap from the
freshly allocated copies that the builder mutates. -/

/-- All addresses dereferenced by `readTree h f v` are below `N`. -/
def boundedRead (h : Heap) (N : ℕ) : ℕ → HVal → Bool
  | 0, _ => true
  | fuel + 1, HVal.arr es => es.all (boundedRead h N fuel)
  | fuel + 1, HVal.ref a =>
    decide (a < N) && (h.getD a []).all fun kv => boundedRead h N fuel kv.2
  | _ + 1, _ => true

/-- Every reference in the value is at or above `N`. -/
inductive ValGE (N : ℕ) : HVal → Prop where
  | null : ValGE N HVal.null
  | num (n : JSNum) : ValGE N (HVal.num n)
  | str (s : String) : ValGE N (HVal.str s)
  | arr (es : List HVal) : (∀ e ∈ es, ValGE N e) → ValGE N (HVal.arr es)
  | ref (a : ℕ) : N ≤ a → ValGE N (HVal.ref a)

/-- Every object in the heap region at or above `N` has only references at
or above `N` (vacuously true past the end of the heap, where `getD` yields
the empty object). -/
def GoodExt (N : ℕ) (h : Heap) : Prop :=
  ∀ a, N ≤ a → ∀ kv ∈ h.getD a [], ValGE N kv.2

/-- The heap `h'` agrees with `h` on every address below `N`. -/
def PresBelow (N : ℕ) (h h' : Heap) : Prop :=
  ∀ a, a < N → h'.getD a [] = h.getD a []

/-! ### C7 universality: loose value equality -/

mutual

def hvalSEq : HVal → HVal → Bool
  | HVal.null, HVal.null => true
  | HVal.num _, HVal.num _ => true
  | HVal.str a, HVal.str b => a = b
  | HVal.ref a, HVal.ref b => a = b
  | HVal.arr xs, HVal.arr ys => hvalSEqList xs ys
  | _, _ => false

def hvalSEqList : List HVal → List HVal → Bool
  | [], [] => true
  | x :: xs, y :: ys => hvalSEq x y && hvalSEqList xs ys
  | _, _ => false

end

def hvalLEq : HVal → HVal → Bool
  | HVal.null, HVal.null => true
  | HVal.num _, HVal.num _ => true
  | HVal.str _, HVal.str _ => true
  | HVal.ref a, HVal.ref b => a = b
  | HVal.arr xs, HVal.arr ys => hvalSEqList xs ys
  | _, _ => false

def hobjLEq : HObj → HObj → Bool
  | [], [] => true
  | kv :: fs, kv2 :: gs => kv.1 = kv2.1 && hvalLEq kv.2 kv2.2 && hobjLEq fs gs
  | _, _ => false

def heapLEq : Heap → Heap → Bool
  | [], [] => true
  | o :: t, o2 :: t2 => hobjLEq o o2 && heapLEq t t2
  | _, _ => false

mutual

def tSEq (a b : JTree) : Bool :=
  match a, b with
  | .null, .null => true
  | .num _, .num _ => true
  | .str a, .str b => a = b
  | .arr xs, .arr ys => tSEqList xs ys
  | .obj fs, .obj gs => tFieldsEq fs gs
  | _, _ => false
termination_by structural a

def tLEq (a b : JTree) : Bool :=
  match a, b with
  | .null, .null => true
  | .num _, .num _ => true
  | .str _, .str _ => true
  | .arr xs, .arr ys => tSEqList xs ys
  | .obj fs, .obj gs => tFieldsEq fs gs
  | _, _ => false
termination_by structural a

def tSEqList (a b : List JTree) : Bool :=
  match a, b with
  | [], [] => true
  | t :: ts, t2 :: ts2 => tSEq t t2 && tSEqList ts ts2
  | _, _ => false
termination_by structural a

def tFieldsEq (a b : List (String × JTree)) : Bool :=
  match a, b with
  | [], [] => true
  | kv :: fs, kv2 :: gs => kv.1 = kv2.1 && tLEq kv.2 kv2.2 && tFieldsEq fs gs
  | _, _ => false
termination_by structural a

end

def nodeRefHit (id : String) : List JTree → Bool
  | [JTree.str i, JTree.num _] => i = id
  | _ => false

def optLEq : Option HVal → Option HVal → Bool
  | none, none => true
  | some v, some v' => hvalLEq v v'
  | _, _ => false

def c7canon : Except String (Heap × ℕ) :=
  buildComfyEditHeap heap0 "" (JSNum.fin 0) none (some "s") none
    (fun _ => Except.ok "")

def c7heapC : Heap :=
  match c7canon with
  | .ok (x, _) => x
  | .error _ => []

def c7addrC : ℕ :=
  match c7canon with
  | .ok (_, a) => a
  | .error _ => 0

def c7wbuild : Except String (Heap × ℕ) :=
  buildComfyUIPayloadHeap heap0 "PROMPT" (JSNum.fin 1368) (JSNum.fin 768)
    (JSNum.fin 42) GenMode.imgedit none (some "SRC") none
    (fun _ => Except.ok "up.png") none

def c7wheap : Heap :=
  match c7wbuild with
  | .ok (x, _) => x
  | .error _ => []

def c7waddr : ℕ :=
  match c7wbuild with
  | .ok (_, a) => a
  | .error _ => 0

/-! ### Concrete fixtures used by the orchestrator theorems -/

/-- A provider with no recognized marker: classified `yunwu`
(gemini-compatible, the fallback family). -/
def yunwuProvider : Provider :=
  ⟨"Test", "key", "https://example.com/v1beta", "gemini"⟩

/-- A local ComfyUI provider (classified `comfyui` by both its name and the
`:8188` port marker). -/
def comfyProvider : Provider :=
  ⟨"Local ComfyUI", "key", "http://127.0.0.1:8188", "z_image_turbo_bf16.safetensors"⟩

/-- A plain text-to-image request for the given provider. -/
def baseOpts (prov : Provider) : GenOptions :=
  { prompt := "a red fox", provider := some prov, aspectRatio := "16:9",
    resolution := some "1K", mode := GenMode.text2img, searchWeb := false,
    inputImage := none, sourceImage := none, referenceImage := none }

/-- The same request in image-edit mode with a source image. -/
def comfyEditOpts : GenOptions :=
  { baseOpts comfyProvider with mode := GenMode.imgedit, sourceImage := some "SRC" }

/-- An environment with the given fetch outcome and upload behaviour. -/
def baseEnv (fr : FetchResult) (upload : String → Except String String) : Env :=
  { seed := JSNum.fin 42, upload := upload, customT2I := none, nowStr := "0",
    fetchResult := fr, pollOracle := fun _ => PollStep.absent }

/-! ## Theorems

### Arithmetic bridge: the integer formulas compute the source's
real-number formulas -/

theorem sqrtBS_spec (n : ℕ) : ∀ fuel lo hi : ℕ, lo ≤ hi → hi - lo < 2 ^ fuel →
    lo * lo ≤ n → n < (hi + 1) * (hi + 1) →
    sqrtBS n fuel lo hi * sqrtBS n fuel lo hi ≤ n ∧
      n < (sqrtBS n fuel lo hi + 1) * (sqrtBS n fuel lo hi + 1) := by
  intro fuel
  induction fuel with
  | zero =>
    intro lo hi hle hgap hlo hhi
    have h : lo = hi := by omega
    subst h
    exact ⟨hlo, hhi⟩
  | succ fuel ih =>
    intro lo hi hle hgap hlo hhi
    have hp : 2 ^ (fuel + 1) = 2 * 2 ^ fuel := by ring
    by_cases h1 : hi ≤ lo
    · have h : lo = hi := Nat.le_antisymm hle h1
      subst h
      simpa [sqrtBS] using ⟨hlo, hhi⟩
    · by_cases h2 : (lo + hi + 1) / 2 * ((lo + hi + 1) / 2) ≤ n
      · have : sqrtBS n (fuel + 1) lo hi = sqrtBS n fuel ((lo + hi + 1) / 2) hi := by
          simp [sqrtBS, h1, h2]
        rw [this]
        exact ih ((lo + hi + 1) / 2) hi (by omega) (by omega) h2 hhi
      · have : sqrtBS n (fuel + 1) lo hi = sqrtBS n fuel lo ((lo + hi + 1) / 2 - 1) := by
          simp [sqrtBS, h1, h2]
        rw [this]
        refine ih lo ((lo + hi + 1) / 2 - 1) (by omega) (by omega) hlo ?_
        have he : (lo + hi + 1) / 2 - 1 + 1 = (lo + hi + 1) / 2 := by omega
        rw [he]
        omega

theorem isqrt_spec (n : ℕ) :
    isqrt n * isqrt n ≤ n ∧ n < (isqrt n + 1) * (isqrt n + 1) := by
  have h := sqrtBS_spec n n 0 n (Nat.zero_le n)
    (by simpa using Nat.lt_two_pow n) (by simp) (by nlinarith)
  simpa [isqrt] using h

/-- Floor of `y / c` for `y` in the unit interval `[m, m+1)` is the natural
division `m / c`. -/
theorem intFloor_natDiv {α : Type*} [LinearOrderedField α] [FloorRing α]
    (m c : ℕ) (y : α) (hc : 0 < c) (h1 : (m : α) ≤ y) (h2 : y < m + 1) :
    ⌊y / (c : α)⌋ = (m / c : ℕ) := by
  have hc0 : (0 : α) < c := by exact_mod_cast hc
  have hmc : m + 1 ≤ (m / c + 1) * c := by
    have h3 := Nat.div_add_mod m c
    have h4 := Nat.mod_lt m hc
    nlinarith [h3, h4]
  have h5 : ((m / c : ℕ) : α) * c ≤ (m : α) := by
    exact_mod_cast Nat.cast_le.mpr (Nat.div_mul_le_self m c)
  have h6 : ((m : α) + 1) ≤ (((m / c : ℕ) : α) + 1) * c := by exact_mod_cast hmc
  have hA : ((((m / c : ℕ) : ℤ)) : α) = ((m / c : ℕ) : α) := by
    norm_cast
  rw [Int.floor_eq_iff]
  constructor
  · rw [hA, le_div_iff₀ hc0]
    calc ((m / c : ℕ) : α) * c ≤ (m : α) := h5
      _ ≤ y := h1
  · rw [hA, div_lt_iff₀ hc0]
    calc y < (m : α) + 1 := h2
      _ ≤ (((m / c : ℕ) : α) + 1) * c := h6

/-- `jsRoundDiv` computes `Math.round (a / b)` exactly. -/
theorem jsRoundDiv_eq (a b : ℕ) (hb : 0 < b) :
    (jsRoundDiv a b : ℤ) = jsRound ((a : ℚ) / b) := by
  have hb0 : (0 : ℚ) < b := by exact_mod_cast hb
  have key : (a : ℚ) / b + 1 / 2 = ((2 * a + b : ℕ) : ℚ) / ((2 * b : ℕ) : ℚ) := by
    push_cast
    field_simp
    ring
  rw [jsRound, key, intFloor_natDiv (2 * a + b) (2 * b) _ (by omega) (by norm_num)
    (by push_cast; norm_num)]
  rfl

/-- `roundDivSqrt` computes the source's
`Math.round (base / Math.sqrt (ratio))` exactly, for a positive rational
ratio `num / den`. -/
theorem roundDivSqrt_eq (base num den : ℕ) (hnum : 0 < num) (hden : 0 < den) :
    (roundDivSqrt base num den : ℤ) =
      ⌊(base : ℝ) / Real.sqrt ((num : ℝ) / (den : ℝ)) + 1 / 2⌋ := by
  have hnum0 : (0 : ℝ) < num := by exact_mod_cast hnum
  have hden0 : (0 : ℝ) < den := by exact_mod_cast hden
  set s : ℝ := Real.sqrt ((num : ℝ) / den) with hs
  have hs2 : s * s = (num : ℝ) / den := Real.mul_self_sqrt (by positivity)
  have hspos : 0 < s := Real.sqrt_pos.mpr (by positivity)
  have hMcast : ((4 * base ^ 2 * num * den : ℕ) : ℝ) = (2 * base * (s * den)) ^ 2 := by
    push_cast
    have : (2 * (base : ℝ) * (s * den)) ^ 2 = 4 * base ^ 2 * (s * s) * den ^ 2 := by ring
    rw [this, hs2]
    field_simp
    ring
  have hMsqrt : Real.sqrt ((4 * base ^ 2 * num * den : ℕ) : ℝ) = 2 * base * (s * den) := by
    rw [hMcast, Real.sqrt_sq (by positivity)]
  have key : (base : ℝ) / s + 1 / 2 =
      (Real.sqrt ((4 * base ^ 2 * num * den : ℕ) : ℝ) + num) / ((2 * num : ℕ) : ℝ) := by
    rw [hMsqrt]
    have hnum' : (num : ℝ) = s * s * den := by
      rw [hs2]; field_simp
    have h2num : ((2 * num : ℕ) : ℝ) = 2 * (num : ℝ) := by push_cast; ring
    rw [h2num]
    rw [div_add_div _ _ (ne_of_gt hspos) (two_ne_zero),
      div_eq_div_iff (by positivity) (by positivity)]
    nlinarith [hnum']
  set M : ℕ := 4 * base ^ 2 * num * den with hM
  have h8 : ((isqrt M * isqrt M : ℕ) : ℝ) ≤ ((M : ℕ) : ℝ) := by
    exact_mod_cast (isqrt_spec M).1
  have h7 : (isqrt M : ℝ) ≤ Real.sqrt ((M : ℕ) : ℝ) := by
    calc (isqrt M : ℝ) = Real.sqrt ((isqrt M : ℝ) ^ 2) := by
          rw [Real.sqrt_sq (by positivity)]
      _ ≤ Real.sqrt ((M : ℕ) : ℝ) := by
          apply Real.sqrt_le_sqrt
          push_cast at h8 ⊢
          nlinarith [h8]
  have hlo : ((isqrt M + num : ℕ) : ℝ) ≤ Real.sqrt ((M : ℕ) : ℝ) + num := by
    push_cast
    push_cast at h7
    linarith
  have h10 : ((M : ℕ) : ℝ) < (((isqrt M + 1) * (isqrt M + 1) : ℕ) : ℝ) := by
    exact_mod_cast (isqrt_spec M).2
  have h9 : Real.sqrt ((M : ℕ) : ℝ) < (isqrt M : ℝ) + 1 := by
    have h11 : (0 : ℝ) < (isqrt M : ℝ) + 1 := by positivity
    refine (Real.sqrt_lt' h11).mpr ?_
    push_cast at h10 ⊢
    nlinarith [h10]
  have hhi : Real.sqrt ((M : ℕ) : ℝ) + num < ((isqrt M + num : ℕ) : ℝ) + 1 := by
    push_cast
    push_cast at h9
    linarith
  rw [key, intFloor_natDiv (isqrt M + num) (2 * num) _ (by omega) hlo hhi]
  rfl

/-! ### C1: `_getPixelDimensions` on degenerate and supported inputs -/

/-- C1 counterexample: on the aspect-ratio string `"0:1"` (spec-listed as a
degenerate input that must still yield positive multiples of 8) the parsed
ratio is `0/1 = 0`, the `h !== 0` guard does NOT fire (only `H = 0` is
guarded, not `W = 0`), and the computation produces height `Infinity` and
width `NaN` — not strictly positive integers divisible by 8. -/
theorem c1_counterexample :
    getPixelDimensions "1K" "0:1" = (JSNum.nan, JSNum.inf) ∧
      goodDim (getPixelDimensions "1K" "0:1").1 = false ∧
      goodDim (getPixelDimensions "1K" "0:1").2 = false :=
  ⟨by decide, by decide, by decide⟩

/-- C1 amended: for every resolution tier and every aspect-ratio string the
plugin's UI can supply (the supported ratio list) as well as the
non-parsing fallback inputs `"abc"` and `""`, `_getPixelDimensions` returns
strictly positive integers divisible by 8; the degenerate `"0:1"` instead
yields NaN width and infinite height (see the counterexample). -/
theorem c1_amended (res ar : String)
    (hres : res ∈ ["1K", "2K", "4K"])
    (har : ar ∈ ["1:1", "16:9", "9:16", "4:3", "3:4", "21:9", "3:2", "2:3", "abc", ""]) :
    goodDim (getPixelDimensions res ar).1 = true ∧
      goodDim (getPixelDimensions res ar).2 = true := by
  fin_cases hres <;> fin_cases har <;> exact ⟨by decide, by decide⟩

/-- C1 witness: the amended theorem applied at tier `"1K"`, ratio
`"16:9"`. -/
theorem c1_witness :
    goodDim (getPixelDimensions "1K" "16:9").1 = true ∧
      goodDim (getPixelDimensions "1K" "16:9").2 = true :=
  c1_amended "1K" "16:9" (by decide) (by decide)

/-! ### C2 and C6: the polling loop -/

/-- One non-`present` poll recurses. -/
theorem pollAux_step_not_present (oracle : ℕ → PollStep) (r fuel : ℕ)
    (h : (oracle r).isPresent = false) :
    pollAux oracle r (fuel + 1) =
      ((pollAux oracle (r + 1) fuel).1, (pollAux oracle (r + 1) fuel).2 + 1) := by
  cases hstep : oracle r with
  | present outputs => rw [hstep] at h; simp [PollStep.isPresent] at h
  | fetchError => simp [pollAux, hstep]
  | notOk => simp [pollAux, hstep]
  | absent => simp [pollAux, hstep]

/-- If the job never becomes present within the budget, the loop runs the
whole budget and ends with no output images. -/
theorem pollAux_not_present (oracle : ℕ → PollStep) :
    ∀ fuel r, (∀ k, k < fuel → (oracle (r + k)).isPresent = false) →
      pollAux oracle r fuel = (none, fuel) := by
  intro fuel
  induction fuel with
  | zero => intro r _; rfl
  | succ fuel ih =>
    intro r h
    have h0 : (oracle r).isPresent = false := by simpa using h 0 (by omega)
    rw [pollAux_step_not_present oracle r fuel h0]
    rw [ih (r + 1) fun k hk => by
      rw [show r + 1 + k = r + (k + 1) by omega]
      exact h (k + 1) (by omega)]

/-- As soon as the job is present the loop exits at that poll, returning the
image scan of that report. -/
theorem pollAux_present (oracle : ℕ → PollStep) :
    ∀ j fuel r outputs, j < fuel →
      (∀ k, k < j → (oracle (r + k)).isPresent = false) →
      oracle (r + j) = PollStep.present outputs →
      pollAux oracle r fuel = (findImages outputs, j + 1) := by
  intro j
  induction j with
  | zero =>
    intro fuel r outputs hj h0 hp
    cases fuel with
    | zero => omega
    | succ fuel =>
      have hp' : oracle r = PollStep.present outputs := by simpa using hp
      simp [pollAux, hp']
  | succ j ih =>
    intro fuel r outputs hj h0 hp
    cases fuel with
    | zero => omega
    | succ fuel =>
      have h0' : (oracle r).isPresent = false := by simpa using h0 0 (by omega)
      rw [pollAux_step_not_present oracle r fuel h0']
      rw [ih fuel (r + 1) outputs (by omega)
        (fun k hk => by
          rw [show r + 1 + k = r + (k + 1) by omega]
          exact h0 (k + 1) (by omega))
        (by rw [show r + 1 + j = r + (j + 1) by omega]; exact hp)]

/-- If no poll ever reports usable output (absent, failed, or present with
empty outputs), the loop ends with no images after at most `fuel` polls. -/
theorem pollAux_no_output (oracle : ℕ → PollStep)
    (h : ∀ k, (oracle k).reportsOutput = false) :
    ∀ fuel r, (pollAux oracle r fuel).1 = none ∧ (pollAux oracle r fuel).2 ≤ fuel := by
  intro fuel
  induction fuel with
  | zero => intro r; exact ⟨rfl, Nat.le_refl 0⟩
  | succ fuel ih =>
    intro r
    cases hstep : oracle r with
    | present outputs =>
      have hr := h r
      rw [hstep] at hr
      simp only [PollStep.reportsOutput] at hr
      have hfi : findImages outputs = none := by
        cases hfi : findImages outputs with
        | none => rfl
        | some imgs => rw [hfi] at hr; simp at hr
      simp [pollAux, hstep, hfi]
    | fetchError =>
      obtain ⟨h1, h2⟩ := ih (r + 1)
      simp [pollAux, hstep, h1]
      omega
    | notOk =>
      obtain ⟨h1, h2⟩ := ih (r + 1)
      simp [pollAux, hstep, h1]
      omega
    | absent =>
      obtain ⟨h1, h2⟩ := ih (r + 1)
      simp [pollAux, hstep, h1]
      omega

/-- C2 counterexample: a history endpoint that reports the job present with
EMPTY outputs on the very first poll.  The claim says the loop keeps polling
until outputs appear or the 300-poll budget is exhausted; in fact the inner
`break` fires as soon as the job is present, so the loop stops after ONE
poll (and the caller then raises the timeout error), far short of the
budget. -/
theorem c2_counterexample :
    pollHistory (fun _ => PollStep.present [⟨"9", []⟩]) = (none, 1) ∧
      (1 : ℕ) ≠ maxRetries ∧
      processComfyUIResponse { emptyResponse with prompt_id := some "42" }
        (fun _ => PollStep.present [⟨"9", []⟩]) =
        .error "ComfyUI generation timed out or returned no images." :=
  ⟨rfl, by decide, rfl⟩

/-- C2 amended: whenever an individual poll fails transiently or the job is
absent from history, the loop continues until the retry budget (300) is
exhausted; but as soon as the job is reported present the loop exits at that
poll — even when its outputs are empty (in which case the timeout error is
raised immediately rather than after further polling). -/
theorem c2_amended :
    (∀ oracle : ℕ → PollStep,
      (∀ k, k < maxRetries → (oracle k).isPresent = false) →
      pollHistory oracle = (none, maxRetries)) ∧
    (∀ (oracle : ℕ → PollStep) (j : ℕ) (outputs : List NodeOutput),
      j < maxRetries →
      (∀ k, k < j → (oracle k).isPresent = false) →
      oracle j = PollStep.present outputs →
      pollHistory oracle = (findImages outputs, j + 1)) := by
  constructor
  · intro oracle h
    exact pollAux_not_present oracle maxRetries 0 fun k hk => by simpa using h k hk
  · intro oracle j outputs hj h0 hp
    exact pollAux_present oracle j maxRetries 0 outputs hj
      (fun k hk => by simpa using h0 k hk) (by simpa using hp)

/-- C2 witness: the amended theorem applied to an oracle that is present
with image output at attempt 2 (absent before). -/
theorem c2_witness :
    pollHistory (fun k => if k < 2 then PollStep.absent
        else PollStep.present [⟨"9", [⟨"c2.png", "", "output"⟩]⟩]) =
      (some [⟨"c2.png", "", "output"⟩], 3) := by
  exact c2_amended.2 _ 2 [⟨"9", [⟨"c2.png", "", "output"⟩]⟩]
    (by decide) (fun k hk => by interval_cases k <;> rfl) (by rfl)

/-- C6: the polling loop always terminates: an endpoint that never reports
usable output makes the loop end with no images within the 300-poll budget,
after which `_processComfyUIResponse` raises the fixed timeout error; an
endpoint that reports output with images on the first attempt makes the
loop return those images after exactly one poll. -/
theorem c6_poll_termination :
    (∀ oracle : ℕ → PollStep,
      (∀ k, (oracle k).reportsOutput = false) →
      (pollHistory oracle).1 = none ∧ (pollHistory oracle).2 ≤ maxRetries ∧
      processComfyUIResponse { emptyResponse with prompt_id := some "42" } oracle =
        .error "ComfyUI generation timed out or returned no images.") ∧
    (∀ (oracle : ℕ → PollStep) (outputs : List NodeOutput) (imgs : List ImageInfo),
      oracle 0 = PollStep.present outputs →
      findImages outputs = some imgs →
      pollHistory oracle = (some imgs, 1)) := by
  constructor
  · intro oracle h
    obtain ⟨h1, h2⟩ := pollAux_no_output oracle h maxRetries 0
    refine ⟨h1, h2, ?_⟩
    simp only [processComfyUIResponse, pollHistory] at h1 ⊢
    rw [h1]
    rfl
  · intro oracle outputs imgs h0 hf
    have := pollAux_present oracle 0 maxRetries 0 outputs (by decide)
      (fun k hk => absurd hk (by omega)) (by simpa using h0)
    rw [pollHistory, this, hf]

/-- C6 witness: both parts applied to concrete oracles. -/
theorem c6_witness :
    ((pollHistory (fun _ => PollStep.absent)).1 = none ∧
      (pollHistory (fun _ => PollStep.absent)).2 ≤ maxRetries ∧
      processComfyUIResponse { emptyResponse with prompt_id := some "42" }
        (fun _ => PollStep.absent) =
        .error "ComfyUI generation timed out or returned no images.") ∧
    pollHistory (fun _ => PollStep.present [⟨"9", [⟨"c6.png", "", "output"⟩]⟩]) =
      (some [⟨"c6.png", "", "output"⟩], 1) :=
  ⟨c6_poll_termination.1 (fun _ => PollStep.absent) (fun _ => rfl),
   c6_poll_termination.2 _ _ _ rfl rfl⟩

/-! ### C3: placement of the synthetic instruction text -/

/-- C3 counterexample: in the chat-completions (GPTGod) builder with both a
reference and a source image, the text slot is
`finalPrompt + imageAnnotations` — the role annotations come strictly AFTER
the user prompt, not before it as claimed. -/
theorem c3_counterexample :
    firstTextSlot (buildGPTGodPayload "XYZQ" "1:1" none
        ⟨"GPTGod", "k", "https://example.com", "m"⟩ GenMode.imgedit false
        none (some "SRCDATA") (some "REFDATA")).content =
      some "XYZQ\n[Attached Image 1: Reference]\n[Attached Image 2: Source]" ∧
    occursBefore "[Attached Image 1: Reference]" "XYZQ"
      "XYZQ\n[Attached Image 1: Reference]\n[Attached Image 2: Source]" = false ∧
    occursBefore "XYZQ" "[Attached Image 1: Reference]"
      "XYZQ\n[Attached Image 1: Reference]\n[Attached Image 2: Source]" = true :=
  ⟨by decide, by decide, by decide⟩

/-- C3 amended: with both reference and source images supplied, the
gemini-native and gemini-compatible builders place the synthetic role
instruction BEFORE the user prompt inside their single text slot, while the
chat-completions (GPTGod) builder appends its role annotations AFTER the
user prompt (and OpenRouter generates no instruction text at all — its text
slot is the bare prompt). -/
theorem c3_amended (prompt aspectRatio : String) (res : Option String)
    (mode : GenMode) (sw : Bool) (input : Option String) (prov : Provider)
    (r s : String) (hr : r ≠ "") (hs : s ≠ "") :
    (buildGooglePayload prompt aspectRatio res mode sw input (some s) (some r)).parts =
      GeminiPart.text ("System Instruction: Image 1 is the Reference Layer (use this for style/content reference). Image 2 is the Source Layer (the content to be modified). \n\nUser Prompt: " ++ prompt) ::
        [GeminiPart.inline ⟨"image/webp", r⟩, GeminiPart.inline ⟨"image/webp", s⟩] ∧
    (buildYunwuPayload prompt aspectRatio res mode sw input (some s) (some r)).parts =
      GeminiPart.text ("System Instruction: Image 1 is the Reference Layer (use this for style/content reference). Image 2 is the Source Layer (the content to be modified). \n\nUser Prompt: " ++ prompt) ::
        [GeminiPart.inline ⟨"image/webp", r⟩, GeminiPart.inline ⟨"image/webp", s⟩] ∧
    (buildGPTGodPayload prompt "1:1" res prov mode sw input (some s) (some r)).content =
      CCPart.text (prompt ++ "\n[Attached Image 1: Reference]\n[Attached Image 2: Source]") ::
        [CCPart.imageUrl ("data:image/webp;base64," ++ r),
         CCPart.imageUrl ("data:image/webp;base64," ++ s)] ∧
    (buildOpenRouterPayload prompt aspectRatio res prov mode sw input (some s) (some r)).content =
      ORContent.parts (CCPart.text prompt ::
        [CCPart.imageUrl ("data:image/webp;base64," ++ r),
         CCPart.imageUrl ("data:image/webp;base64," ++ s)]) := by
  refine ⟨?_, ?_, ?_, ?_⟩ <;>
    simp [buildGooglePayload, buildYunwuPayload, buildGPTGodPayload,
      buildOpenRouterPayload, multiImageSystemPrompt, multiImageInlineParts,
      isTruthy, isTruthyS, hr, hs] <;>
    (rw [String.append_assoc]; rfl)

/-- C3 witness: the amended theorem applied at concrete inputs. -/
theorem c3_witness :
    (buildGooglePayload "PROMPT" "16:9" none GenMode.imgedit false none
        (some "S") (some "R")).parts =
      GeminiPart.text ("System Instruction: Image 1 is the Reference Layer (use this for style/content reference). Image 2 is the Source Layer (the content to be modified). \n\nUser Prompt: " ++ "PROMPT") ::
        [GeminiPart.inline ⟨"image/webp", "R"⟩, GeminiPart.inline ⟨"image/webp", "S"⟩] :=
  (c3_amended "PROMPT" "16:9" none GenMode.imgedit false none
    ⟨"n", "k", "u", "m"⟩ "R" "S" (by decide) (by decide)).1

/-! ### C4: Reference-then-Source ordering of the transmitted images -/

/-- C4 counterexample: the Seedream builder, given both images, transmits
ONLY the source image; the reference image's data appears nowhere in the
transmitted image list, so the claimed Reference-before-Source ordering of
the transmitted list is violated for this family. -/
theorem c4_counterexample :
    seedreamImages (buildSeedreamPayload "P" "1:1" none
        ⟨"Seedream", "k", "https://ark.cn-beijing.volces.com/api/v3", "doubao-seedream-4-0"⟩
        GenMode.imgedit false none (some "SRCDATA") (some "REFDATA")) =
      ["data:image/webp;base64,SRCDATA"] ∧
    (seedreamImages (buildSeedreamPayload "P" "1:1" none
        ⟨"Seedream", "k", "https://ark.cn-beijing.volces.com/api/v3", "doubao-seedream-4-0"⟩
        GenMode.imgedit false none (some "SRCDATA") (some "REFDATA"))).all
      (fun u => !containsStr "REFDATA" u) = true :=
  ⟨by decide, by decide⟩

/-- C4 amended: the gemini-native, gemini-compatible, chat-completions and
OpenRouter builders place the Reference image strictly before the Source
image in their transmitted image lists; the Seedream builder instead
transmits only the Source image and acknowledges the Reference solely by a
style-reference note prefixed to the prompt (the graph-executor builder has
no image list: each image goes to its designated graph node). -/
theorem c4_amended (prompt aspectRatio : String) (res : Option String)
    (mode : GenMode) (sw : Bool) (prov : Provider)
    (r s : String) (hr : r ≠ "") (hs : s ≠ "") :
    geminiImages (buildGooglePayload prompt aspectRatio res mode sw none
      (some s) (some r)) = [r, s] ∧
    geminiImages (buildYunwuPayload prompt aspectRatio res mode sw none
      (some s) (some r)) = [r, s] ∧
    ccImages (buildGPTGodPayload prompt aspectRatio res prov mode sw none
      (some s) (some r)).content =
      ["data:image/webp;base64," ++ r, "data:image/webp;base64," ++ s] ∧
    orImages (buildOpenRouterPayload prompt aspectRatio res prov mode sw none
      (some s) (some r)).content =
      ["data:image/webp;base64," ++ r, "data:image/webp;base64," ++ s] ∧
    (buildSeedreamPayload prompt aspectRatio res prov mode sw none
      (some s) (some r)).image = some ("data:image/webp;base64," ++ s) ∧
    startsWithStr "[Style Reference: See attached image] "
      (buildSeedreamPayload prompt aspectRatio res prov mode sw none
        (some s) (some r)).prompt = true := by
  refine ⟨?_, ?_, ?_, ?_, ?_, ?_⟩ <;>
    simp [buildGooglePayload, buildYunwuPayload, buildGPTGodPayload,
      buildOpenRouterPayload, buildSeedreamPayload, multiImageSystemPrompt,
      multiImageInlineParts, geminiImages, ccImages, orImages, seedreamImages,
      isTruthy, isTruthyS, hr, hs, startsWithStr]

/-- C4 witness: the amended theorem applied at concrete inputs. -/
theorem c4_witness :
    geminiImages (buildGooglePayload "P" "1:1" none GenMode.imgedit false none
      (some "S") (some "R")) = ["R", "S"] :=
  (c4_amended "P" "1:1" none GenMode.imgedit false ⟨"n", "k", "u", "m"⟩
    "R" "S" (by decide) (by decide)).1

/-! ### Substring lemmas for the refusal-message claims -/

theorem findIdx_isSome (pat : List Char) :
    ∀ l : List Char, pat <:+: l → (findIdx pat l).isSome = true := by
  intro l
  induction l with
  | nil =>
    intro h
    rcases h with ⟨u, v, huv⟩
    have hp : pat = [] := by
      cases u <;> cases pat <;> simp_all
    subst hp
    simp [findIdx]
  | cons c rest ih =>
    intro h
    by_cases hp : pat.isPrefixOf (c :: rest)
    · simp [findIdx, hp]
    · have h2 : pat <:+: rest := by
        rcases h with ⟨u, v, huv⟩
        cases u with
        | nil =>
          exfalso
          apply hp
          rw [List.isPrefixOf_iff_prefix]
          exact ⟨v, by simpa using huv⟩
        | cons c' u' =>
          simp only [List.cons_append, List.cons.injEq] at huv
          exact ⟨u', v, huv.2⟩
      simp [findIdx, hp, ih h2]

/-- A string whose character list embeds `s` contiguously contains `s`. -/
theorem containsStr_of_toList (s t : String) (u v : List Char)
    (h : t.toList = u ++ s.toList ++ v) : containsStr s t = true := by
  unfold containsStr
  rw [h]
  exact findIdx_isSome s.toList _ ⟨u, v, rfl⟩

/-- `a ++ s ++ b` contains `s`. -/
theorem containsStr_middle (s a b : String) : containsStr s (a ++ s ++ b) = true :=
  containsStr_of_toList s _ a.toList b.toList (by simp)

/-- `a ++ s` contains `s`. -/
theorem containsStr_append_self (s a : String) : containsStr s (a ++ s) = true :=
  containsStr_of_toList s _ a.toList [] (by simp)

/-- `a ++ (b ++ s)` contains `s`. -/
theorem containsStr_append_right (s a b : String) :
    containsStr s (a ++ (b ++ s)) = true :=
  containsStr_of_toList s _ (a.toList ++ b.toList) [] (by simp)

/-! ### C5: refusal strings in error messages -/

/-- The diagnostic extractor embeds a string-shaped `error` field verbatim
in every one of its three error branches. -/
theorem extractServerMessage_error_str (refusal : String) :
    containsStr refusal
      (extractServerMessage { emptyResponse with error := some (.str refusal) }) = true := by
  simp only [extractServerMessage, emptyResponse]
  split_ifs with h1 h2
  · exact containsStr_middle refusal _ _
  · exact containsStr_middle refusal _ _
  · exact containsStr_append_self refusal _

/-- `a ++ (b ++ s ++ c)` contains `s`. -/
theorem containsStr_wrap (s a b c : String) :
    containsStr s (a ++ (b ++ s ++ c)) = true :=
  containsStr_of_toList s _ (a.toList ++ b.toList) c.toList (by simp)

/-- C5 counterexample: the graph-executor (ComfyUI) parser.  A
family-appropriate queue-failure body (HTTP 200, an `error` field with an
explanation, no `prompt_id`) raises the fixed message
`"ComfyUI did not return a prompt_id"`, which does not contain the embedded
refusal string — this family never consults the shared diagnostic
extractor. -/
theorem c5_counterexample :
    processComfyUIResponse
        { emptyResponse with error := some (.str "REFUSALXYZ") }
        (fun _ => PollStep.absent) =
      .error "ComfyUI did not return a prompt_id" ∧
    containsStr "REFUSALXYZ" "ComfyUI did not return a prompt_id" = false :=
  ⟨rfl, by decide⟩

/-- C5 amended: for the four synchronous families (gemini-native,
gemini-compatible via the same parser, chat-completions, OpenRouter,
Seedream) a family-appropriate body with no image and an embedded refusal
string produces an error whose message contains the refusal verbatim; the
graph-executor family instead raises fixed messages that never embed server
text.  (The hypotheses keep the refusal observable: nonempty, stable under
the `trim` the gemini text path applies, and free of `"http"` so the
chat-completions URL regexes cannot match inside it.) -/
theorem c5_amended (refusal : String) (hne : refusal ≠ "")
    (htrim : jsTrim refusal = refusal)
    (hhttp : containsStrCI "http" refusal = false) :
    (processGeminiResponse
        { emptyResponse with candidates := some [⟨⟨[⟨some refusal, none⟩]⟩⟩] } =
        .error ("No image. AI response: " ++ refusal) ∧
      containsStr refusal ("No image. AI response: " ++ refusal) = true) ∧
    (processGPTGodResponse
        { emptyResponse with choices := some [⟨⟨some refusal, []⟩⟩] } =
        .error ("No image generated. " ++ ("Server message: " ++ refusal)) ∧
      containsStr refusal
        ("No image generated. " ++ ("Server message: " ++ refusal)) = true) ∧
    (processOpenRouterResponse
        { emptyResponse with choices := some [⟨⟨some refusal, []⟩⟩] } =
        .error ("No image generated. " ++ ("Server message: " ++ refusal)) ∧
      containsStr refusal
        ("No image generated. " ++ ("Server message: " ++ refusal)) = true) ∧
    (processSeedreamResponse { emptyResponse with error := some (.str refusal) } =
        .error ("No image generated. " ++
          extractServerMessage { emptyResponse with error := some (.str refusal) }) ∧
      containsStr refusal
        ("No image generated. " ++
          extractServerMessage { emptyResponse with error := some (.str refusal) }) = true) ∧
    (∀ oracle : ℕ → PollStep,
      processComfyUIResponse { emptyResponse with error := some (.str refusal) } oracle =
        .error "ComfyUI did not return a prompt_id") := by
  have hext : extractTextFromParts [⟨some refusal, none⟩] = refusal := by
    simp only [extractTextFromParts, List.filterMap]
    rw [if_pos hne]
    exact htrim
  refine ⟨⟨?_, containsStr_append_self refusal _⟩,
    ⟨?_, containsStr_append_right refusal _ _⟩,
    ⟨?_, containsStr_append_right refusal _ _⟩,
    ⟨rfl, ?_⟩, fun _ => rfl⟩
  · simp [processGeminiResponse, firstInline, hext, hne]
  · simp [processGPTGodResponse, gptgodUrlMatch, hhttp, isTruthy,
      extractServerMessage, emptyResponse, hne]
  · simp [processOpenRouterResponse, extractServerMessage, emptyResponse, hne]
  · simp only [extractServerMessage, emptyResponse]
    split_ifs with h1 h2
    · exact containsStr_wrap refusal _ _ _
    · exact containsStr_wrap refusal _ _ _
    · exact containsStr_append_right refusal _ _

/-- C5 witness: the amended theorem's chat-completions part applied to a
concrete refusal. -/
theorem c5_witness :
    processGPTGodResponse
        { emptyResponse with choices := some [⟨⟨some "REFUSED", []⟩⟩] } =
      .error ("No image generated. " ++ ("Server message: " ++ "REFUSED")) ∧
    containsStr "REFUSED"
      ("No image generated. " ++ ("Server message: " ++ "REFUSED")) = true :=
  (c5_amended "REFUSED" (by decide) (by decide) (by decide)).2.1

/-! ### C7: no dangling reference after removing the reference-image node -/

theorem containsRefTo_arr (id : String) (es : List JTree) :
    containsRefTo id (JTree.arr es) = (nodeRefHit id es || containsRefToList id es) := by
  match es with
  | [] => rfl
  | [t] => cases t <;> rfl
  | t1 :: t2 :: rest =>
    cases t1 with
    | str i =>
      cases t2 with
      | num n =>
        match rest with
        | [] => exact (Bool.or_false _).symm
        | r :: rs => rfl
      | null => rfl
      | str b => rfl
      | arr ys => rfl
      | obj gs => rfl
    | null => rfl
    | num n => rfl
    | arr xs => rfl
    | obj fs => rfl

mutual

theorem containsRefTo_tSEq (id : String) (t t' : JTree) (h : tSEq t t' = true) :
    containsRefTo id t = containsRefTo id t' :=
  match t, t', h with
  | .null, t', h => by cases t' <;> simp_all [tSEq]
  | .num n, t', h => by cases t' <;> simp_all [tSEq, containsRefTo]
  | .str s, t', h => by cases t' <;> simp_all [tSEq, containsRefTo]
  | .arr xs, t', h => by
    cases t' with
    | arr ys =>
      simp only [tSEq] at h
      rw [containsRefTo_arr, containsRefTo_arr,
        (containsRefTo_tSEqList id xs ys h).1, (containsRefTo_tSEqList id xs ys h).2]
    | null => simp [tSEq] at h
    | num m => simp [tSEq] at h
    | str s => simp [tSEq] at h
    | obj gs => simp [tSEq] at h
  | .obj fs, t', h => by
    cases t' with
    | obj gs =>
      simp only [tSEq] at h
      simp only [containsRefTo]
      exact containsRefTo_tFieldsEq id fs gs h
    | null => simp [tSEq] at h
    | num m => simp [tSEq] at h
    | str s => simp [tSEq] at h
    | arr ys => simp [tSEq] at h

theorem containsRefTo_tLEq (id : String) (t t' : JTree) (h : tLEq t t' = true) :
    containsRefTo id t = containsRefTo id t' :=
  match t, t', h with
  | .null, t', h => by cases t' <;> simp_all [tLEq]
  | .num n, t', h => by cases t' <;> simp_all [tLEq, containsRefTo]
  | .str s, t', h => by cases t' <;> simp_all [tLEq, containsRefTo]
  | .arr xs, t', h => by
    cases t' with
    | arr ys =>
      simp only [tLEq] at h
      rw [containsRefTo_arr, containsRefTo_arr,
        (containsRefTo_tSEqList id xs ys h).1, (containsRefTo_tSEqList id xs ys h).2]
    | null => simp [tLEq] at h
    | num m => simp [tLEq] at h
    | str s => simp [tLEq] at h
    | obj gs => simp [tLEq] at h
  | .obj fs, t', h => by
    cases t' with
    | obj gs =>
      simp only [tLEq] at h
      simp only [containsRefTo]
      exact containsRefTo_tFieldsEq id fs gs h
    | null => simp [tLEq] at h
    | num m => simp [tLEq] at h
    | str s => simp [tLEq] at h
    | arr ys => simp [tLEq] at h

theorem containsRefTo_tSEqList (id : String) (ts ts' : List JTree)
    (h : tSEqList ts ts' = true) :
    nodeRefHit id ts = nodeRefHit id ts' ∧
      containsRefToList id ts = containsRefToList id ts' :=
  match ts, ts', h with
  | [], ts', h => by cases ts' <;> simp_all [tSEqList, nodeRefHit, containsRefToList]
  | t :: ts, ts', h => by
    cases ts' with
    | nil => simp [tSEqList] at h
    | cons t2 ts2 =>
      simp only [tSEqList, Bool.and_eq_true] at h
      obtain ⟨h1, h2⟩ := h
      have ihhead := containsRefTo_tSEq id t t2 h1
      have ihtail := containsRefTo_tSEqList id ts ts2 h2
      refine ⟨?_, ?_⟩
      · cases t with
        | str a =>
          cases t2 with
          | str b =>
            simp only [tSEq, decide_eq_true_eq] at h1
            subst h1
            cases ts with
            | nil => cases ts2 <;> simp_all [tSEqList, nodeRefHit]
            | cons u us =>
              cases ts2 with
              | nil => simp [tSEqList] at h2
              | cons u2 us2 =>
                simp only [tSEqList, Bool.and_eq_true] at h2
                obtain ⟨h3, h4⟩ := h2
                cases u <;> cases u2 <;> simp_all [tSEq, tSEqList, nodeRefHit] <;>
                  (cases us <;> cases us2 <;> simp_all [tSEqList, nodeRefHit])
          | null => simp [tSEq] at h1
          | num m => simp [tSEq] at h1
          | arr ys => simp [tSEq] at h1
          | obj gs => simp [tSEq] at h1
        | null => cases t2 <;> simp_all [tSEq, nodeRefHit]
        | num n => cases t2 <;> simp_all [tSEq, nodeRefHit]
        | arr xs => cases t2 <;> simp_all [tSEq, nodeRefHit]
        | obj fs => cases t2 <;> simp_all [tSEq, nodeRefHit]
      · simp only [containsRefToList, ihhead, ihtail.2]
termination_by structural ts

theorem containsRefTo_tFieldsEq (id : String) (fs gs : List (String × JTree))
    (h : tFieldsEq fs gs = true) :
    containsRefToFields id fs = containsRefToFields id gs :=
  match fs, gs, h with
  | [], gs, h => by cases gs <;> simp_all [tFieldsEq, containsRefToFields]
  | kv :: fs, gs, h => by
    cases gs with
    | nil => simp [tFieldsEq] at h
    | cons kv2 gs2 =>
      simp only [tFieldsEq, Bool.and_eq_true] at h
      obtain ⟨⟨hk, hv⟩, ht⟩ := h
      simp only [containsRefToFields,
        containsRefTo_tLEq id kv.2 kv2.2 hv,
        containsRefTo_tFieldsEq id fs gs2 ht]
termination_by structural fs

end

mutual

theorem hvalSEq_refl (v : HVal) : hvalSEq v v = true :=
  match v with
  | HVal.null => rfl
  | HVal.num _ => rfl
  | HVal.str s => by simp [hvalSEq]
  | HVal.ref a => by simp [hvalSEq]
  | HVal.arr xs => by simp only [hvalSEq]; exact hvalSEqList_refl xs
termination_by structural v

theorem hvalSEqList_refl (vs : List HVal) : hvalSEqList vs vs = true :=
  match vs with
  | [] => rfl
  | v :: tl => by
    simp only [hvalSEqList, Bool.and_eq_true]
    exact ⟨hvalSEq_refl v, hvalSEqList_refl tl⟩
termination_by structural vs

end

theorem hvalLEq_refl (v : HVal) : hvalLEq v v = true := by
  cases v with
  | arr xs => simp only [hvalLEq]; exact hvalSEqList_refl xs
  | null => rfl
  | num n => rfl
  | str s => simp [hvalLEq]
  | ref a => simp [hvalLEq]

theorem hobjLEq_refl (o : HObj) : hobjLEq o o = true := by
  induction o with
  | nil => rfl
  | cons kv tl ih =>
    simp only [hobjLEq, Bool.and_eq_true]
    exact ⟨⟨by simp, hvalLEq_refl kv.2⟩, ih⟩

theorem heapLEq_refl (h : Heap) : heapLEq h h = true := by
  induction h with
  | nil => rfl
  | cons o tl ih =>
    simp only [heapLEq, Bool.and_eq_true]
    exact ⟨hobjLEq_refl o, ih⟩

theorem heapLEq_getD : ∀ h h', heapLEq h h' = true →
    ∀ a, hobjLEq (h.getD a []) (h'.getD a []) = true
  | [], h', hh, a => by
    cases h' with
    | nil => simp [List.getD, hobjLEq]
    | cons o2 t2 => simp [heapLEq] at hh
  | o :: t, h', hh, a => by
    cases h' with
    | nil => simp [heapLEq] at hh
    | cons o2 t2 =>
      simp only [heapLEq, Bool.and_eq_true] at hh
      cases a with
      | zero => simpa [List.getD] using hh.1
      | succ n => simpa [List.getD] using heapLEq_getD t t2 hh.2 n

theorem find?_hobjLEq : ∀ o o', hobjLEq o o' = true → ∀ k,
    optLEq ((o.find? (fun kv => kv.1 = k)).map (·.2))
      ((o'.find? (fun kv => kv.1 = k)).map (·.2)) = true
  | [], o', h, k => by
    cases o' with
    | nil => simp [List.find?, optLEq]
    | cons kv2 gs => simp [hobjLEq] at h
  | kv :: fs, o', h, k => by
    cases o' with
    | nil => simp [hobjLEq] at h
    | cons kv2 gs =>
      simp only [hobjLEq, Bool.and_eq_true, decide_eq_true_eq] at h
      obtain ⟨⟨hk, hv⟩, ht⟩ := h
      by_cases hkk : kv.1 = k
      · rw [List.find?_cons_of_pos _ (by simp [hkk]),
          List.find?_cons_of_pos _ (by simp [← hk, hkk])]
        simpa [optLEq] using hv
      · rw [List.find?_cons_of_neg _ (by simp [hkk]),
          List.find?_cons_of_neg _ (by simp [← hk, hkk])]
        exact find?_hobjLEq fs gs ht k

theorem getField_leq {h h' : Heap} (hh : heapLEq h h' = true) (a : ℕ) (k : String) :
    optLEq (getField h a k) (getField h' a k) = true := by
  unfold getField
  exact find?_hobjLEq _ _ (heapLEq_getD h h' hh a) k

theorem any_key_hobjLEq : ∀ o o', hobjLEq o o' = true → ∀ k : String,
    (o.any fun kv => kv.1 = k) = (o'.any fun kv => kv.1 = k)
  | [], o', h, k => by
    cases o' with
    | nil => rfl
    | cons kv2 gs => simp [hobjLEq] at h
  | kv :: fs, o', h, k => by
    cases o' with
    | nil => simp [hobjLEq] at h
    | cons kv2 gs =>
      simp only [hobjLEq, Bool.and_eq_true, decide_eq_true_eq] at h
      obtain ⟨⟨hk, hv⟩, ht⟩ := h
      simp only [List.any_cons, hk, any_key_hobjLEq fs gs ht k]

theorem hobjLEq_append : ∀ o o' p p', hobjLEq o o' = true → hobjLEq p p' = true →
    hobjLEq (o ++ p) (o' ++ p') = true
  | [], o', p, p', ho, hp => by
    cases o' with
    | nil => simpa using hp
    | cons kv2 gs => simp [hobjLEq] at ho
  | kv :: fs, o', p, p', ho, hp => by
    cases o' with
    | nil => simp [hobjLEq] at ho
    | cons kv2 gs =>
      simp only [hobjLEq, Bool.and_eq_true] at ho
      simp only [List.cons_append, hobjLEq, Bool.and_eq_true]
      exact ⟨ho.1, hobjLEq_append fs gs p p' ho.2 hp⟩

theorem setFieldObj_map_leq (k : String) (v v' : HVal) (hv : hvalLEq v v' = true) :
    ∀ o o', hobjLEq o o' = true →
      hobjLEq (o.map fun kv => if kv.1 = k then (k, v) else kv)
        (o'.map fun kv => if kv.1 = k then (k, v') else kv) = true
  | [], o', h => by
    cases o' with
    | nil => rfl
    | cons kv2 gs => simp [hobjLEq] at h
  | kv :: fs, o', h => by
    cases o' with
    | nil => simp [hobjLEq] at h
    | cons kv2 gs =>
      simp only [hobjLEq, Bool.and_eq_true, decide_eq_true_eq] at h
      obtain ⟨⟨hk, hvv⟩, ht⟩ := h
      simp only [List.map_cons]
      by_cases hkk : kv.1 = k
      · rw [if_pos hkk, if_pos (hk ▸ hkk)]
        simp only [hobjLEq, Bool.and_eq_true, decide_eq_true_eq]
        exact ⟨⟨by simp, hv⟩, setFieldObj_map_leq k v v' hv fs gs ht⟩
      · rw [if_neg hkk, if_neg (hk ▸ hkk)]
        simp only [hobjLEq, Bool.and_eq_true, decide_eq_true_eq]
        exact ⟨⟨hk, hvv⟩, setFieldObj_map_leq k v v' hv fs gs ht⟩

theorem setFieldObj_leq {o o' : HObj} (ho : hobjLEq o o' = true) (k : String)
    {v v' : HVal} (hv : hvalLEq v v' = true) :
    hobjLEq (setFieldObj o k v) (setFieldObj o' k v') = true := by
  unfold setFieldObj
  rw [← any_key_hobjLEq o o' ho k]
  by_cases hany : o.any (fun kv => kv.1 = k)
  · rw [if_pos hany, if_pos hany]
    exact setFieldObj_map_leq k v v' hv o o' ho
  · rw [if_neg hany, if_neg hany]
    exact hobjLEq_append o o' [(k, v)] [(k, v')] ho
      (by simp [hobjLEq, hv])

theorem delFieldObj_leq (k : String) : ∀ o o', hobjLEq o o' = true →
    hobjLEq (delFieldObj o k) (delFieldObj o' k) = true
  | [], o', h => by
    cases o' with
    | nil => rfl
    | cons kv2 gs => simp [hobjLEq] at h
  | kv :: fs, o', h => by
    cases o' with
    | nil => simp [hobjLEq] at h
    | cons kv2 gs =>
      simp only [hobjLEq, Bool.and_eq_true, decide_eq_true_eq] at h
      obtain ⟨⟨hk, hvv⟩, ht⟩ := h
      unfold delFieldObj
      simp only [List.filter_cons, hk]
      by_cases hkk : kv2.1 ≠ k
      · rw [if_pos (by simpa using hkk), if_pos (by simpa using hkk)]
        simp only [hobjLEq, Bool.and_eq_true, decide_eq_true_eq]
        exact ⟨⟨hk, hvv⟩, delFieldObj_leq k fs gs ht⟩
      · rw [if_neg (by simpa using hkk), if_neg (by simpa using hkk)]
        exact delFieldObj_leq k fs gs ht

theorem heapLEq_set : ∀ (h h' : Heap) (a : ℕ) (o o' : HObj),
    heapLEq h h' = true → hobjLEq o o' = true →
    heapLEq (h.set a o) (h'.set a o') = true
  | [], h', a, o, o', hh, ho => by
    cases h' with
    | nil => simp [List.set, heapLEq]
    | cons o2 t2 => simp [heapLEq] at hh
  | ob :: t, h', a, o, o', hh, ho => by
    cases h' with
    | nil => simp [heapLEq] at hh
    | cons o2 t2 =>
      simp only [heapLEq, Bool.and_eq_true] at hh
      cases a with
      | zero =>
        simp only [List.set, heapLEq, Bool.and_eq_true]
        exact ⟨ho, hh.2⟩
      | succ n =>
        simp only [List.set, heapLEq, Bool.and_eq_true]
        exact ⟨hh.1, heapLEq_set t t2 n o o' hh.2 ho⟩

theorem setField_leq {h h' : Heap} (hh : heapLEq h h' = true) (a : ℕ) (k : String)
    {v v' : HVal} (hv : hvalLEq v v' = true) :
    heapLEq (setField h a k v) (setField h' a k v') = true := by
  unfold setField
  exact heapLEq_set h h' a _ _ hh (setFieldObj_leq (heapLEq_getD h h' hh a) k hv)

theorem delField_leq {h h' : Heap} (hh : heapLEq h h' = true) (a : ℕ) (k : String) :
    heapLEq (delField h a k) (delField h' a k) = true := by
  unfold delField
  exact heapLEq_set h h' a _ _ hh (delFieldObj_leq k _ _ (heapLEq_getD h h' hh a))

theorem hvalLEq_ref {a : ℕ} {v' : HVal} (h : hvalLEq (HVal.ref a) v' = true) :
    v' = HVal.ref a := by
  cases v' with
  | ref b =>
    simp only [hvalLEq, decide_eq_true_eq] at h
    rw [h]
  | null => simp [hvalLEq] at h
  | num n => simp [hvalLEq] at h
  | str s => simp [hvalLEq] at h
  | arr xs => simp [hvalLEq] at h

theorem setInput_leq {h h' : Heap} (hh : heapLEq h h' = true) (wf : ℕ)
    (nid k : String) {v v' : HVal} (hv : hvalLEq v v' = true) :
    heapLEq (setInput h wf nid k v) (setInput h' wf nid k v') = true := by
  have hopt := getField_leq hh wf nid
  cases g1 : getField h wf nid with
  | none =>
    cases g1' : getField h' wf nid with
    | none =>
      rw [show setInput h wf nid k v = h by simp [setInput, g1],
        show setInput h' wf nid k v' = h' by simp [setInput, g1']]
      exact hh
    | some w2 => rw [g1, g1'] at hopt; simp [optLEq] at hopt
  | some w =>
    cases g1' : getField h' wf nid with
    | none => rw [g1, g1'] at hopt; simp [optLEq] at hopt
    | some w2 =>
      rw [g1, g1'] at hopt
      simp only [optLEq] at hopt
      cases w with
      | ref na =>
        have hw2 := hvalLEq_ref hopt
        subst hw2
        have hopt2 := getField_leq hh na "inputs"
        cases g2 : getField h na "inputs" with
        | none =>
          cases g2' : getField h' na "inputs" with
          | none =>
            rw [show setInput h wf nid k v = h by simp [setInput, g1, g2],
              show setInput h' wf nid k v' = h' by simp [setInput, g1', g2']]
            exact hh
          | some u2 => rw [g2, g2'] at hopt2; simp [optLEq] at hopt2
        | some u =>
          cases g2' : getField h' na "inputs" with
          | none => rw [g2, g2'] at hopt2; simp [optLEq] at hopt2
          | some u2 =>
            rw [g2, g2'] at hopt2
            simp only [optLEq] at hopt2
            cases u with
            | ref ia =>
              have hu2 := hvalLEq_ref hopt2
              subst hu2
              rw [show setInput h wf nid k v = setField h ia k v by
                  simp [setInput, g1, g2],
                show setInput h' wf nid k v' = setField h' ia k v' by
                  simp [setInput, g1', g2']]
              exact setField_leq hh ia k hv
            | null =>
              cases u2 with
              | null =>
                rw [show setInput h wf nid k v = h by simp [setInput, g1, g2],
                  show setInput h' wf nid k v' = h' by simp [setInput, g1', g2']]
                exact hh
              | num m2 => simp [hvalLEq] at hopt2
              | str s2 => simp [hvalLEq] at hopt2
              | arr ys2 => simp [hvalLEq] at hopt2
              | ref b2 => simp [hvalLEq] at hopt2
            | num m =>
              cases u2 with
              | null => simp [hvalLEq] at hopt2
              | num m2 =>
                rw [show setInput h wf nid k v = h by simp [setInput, g1, g2],
                  show setInput h' wf nid k v' = h' by simp [setInput, g1', g2']]
                exact hh
              | str s2 => simp [hvalLEq] at hopt2
              | arr ys2 => simp [hvalLEq] at hopt2
              | ref b2 => simp [hvalLEq] at hopt2
            | str s =>
              cases u2 with
              | null => simp [hvalLEq] at hopt2
              | num m2 => simp [hvalLEq] at hopt2
              | str s2 =>
                rw [show setInput h wf nid k v = h by simp [setInput, g1, g2],
                  show setInput h' wf nid k v' = h' by simp [setInput, g1', g2']]
                exact hh
              | arr ys2 => simp [hvalLEq] at hopt2
              | ref b2 => simp [hvalLEq] at hopt2
            | arr ys =>
              cases u2 with
              | null => simp [hvalLEq] at hopt2
              | num m2 => simp [hvalLEq] at hopt2
              | str s2 => simp [hvalLEq] at hopt2
              | arr ys2 =>
                rw [show setInput h wf nid k v = h by simp [setInput, g1, g2],
                  show setInput h' wf nid k v' = h' by simp [setInput, g1', g2']]
                exact hh
              | ref b2 => simp [hvalLEq] at hopt2
      | null =>
        cases w2 with
        | null =>
          rw [show setInput h wf nid k v = h by simp [setInput, g1],
            show setInput h' wf nid k v' = h' by simp [setInput, g1']]
          exact hh
        | num m2 => simp [hvalLEq] at hopt
        | str s2 => simp [hvalLEq] at hopt
        | arr ys2 => simp [hvalLEq] at hopt
        | ref b2 => simp [hvalLEq] at hopt
      | num m =>
        cases w2 with
        | null => simp [hvalLEq] at hopt
        | num m2 =>
          rw [show setInput h wf nid k v = h by simp [setInput, g1],
            show setInput h' wf nid k v' = h' by simp [setInput, g1']]
          exact hh
        | str s2 => simp [hvalLEq] at hopt
        | arr ys2 => simp [hvalLEq] at hopt
        | ref b2 => simp [hvalLEq] at hopt
      | str s =>
        cases w2 with
        | null => simp [hvalLEq] at hopt
        | num m2 => simp [hvalLEq] at hopt
        | str s2 =>
          rw [show setInput h wf nid k v = h by simp [setInput, g1],
            show setInput h' wf nid k v' = h' by simp [setInput, g1']]
          exact hh
        | arr ys2 => simp [hvalLEq] at hopt
        | ref b2 => simp [hvalLEq] at hopt
      | arr ys =>
        cases w2 with
        | null => simp [hvalLEq] at hopt
        | num m2 => simp [hvalLEq] at hopt
        | str s2 => simp [hvalLEq] at hopt
        | arr ys2 =>
          rw [show setInput h wf nid k v = h by simp [setInput, g1],
            show setInput h' wf nid k v' = h' by simp [setInput, g1']]
          exact hh
        | ref b2 => simp [hvalLEq] at hopt

theorem readTree_leq {h h' : Heap} (hh : heapLEq h h' = true) :
    ∀ f, (∀ v v', hvalSEq v v' = true →
        tSEq (readTree h f v) (readTree h' f v') = true) ∧
      (∀ v v', hvalLEq v v' = true →
        tLEq (readTree h f v) (readTree h' f v') = true) := by
  intro f
  induction f with
  | zero =>
    constructor <;> intro v v' _ <;> simp [readTree, tSEq, tLEq]
  | succ f ih =>
    obtain ⟨ihS, ihL⟩ := ih
    have mapList : ∀ es es', hvalSEqList es es' = true →
        tSEqList (es.map (readTree h f)) (es'.map (readTree h' f)) = true := by
      intro es
      induction es with
      | nil =>
        intro es' he
        cases es' with
        | nil => simp [tSEqList]
        | cons e2 tl2 => simp [hvalSEqList] at he
      | cons e tl ihes =>
        intro es' he
        cases es' with
        | nil => simp [hvalSEqList] at he
        | cons e2 tl2 =>
          simp only [hvalSEqList, Bool.and_eq_true] at he
          simp only [List.map_cons, tSEqList, Bool.and_eq_true]
          exact ⟨ihS e e2 he.1, ihes tl2 he.2⟩
    have mapFields : ∀ (o o' : HObj), hobjLEq o o' = true →
        tFieldsEq (o.map fun kv => (kv.1, readTree h f kv.2))
          (o'.map fun kv => (kv.1, readTree h' f kv.2)) = true := by
      intro o
      induction o with
      | nil =>
        intro o' ho
        cases o' with
        | nil => simp [tFieldsEq]
        | cons kv2 gs => simp [hobjLEq] at ho
      | cons kv fs ihfs =>
        intro o' ho
        cases o' with
        | nil => simp [hobjLEq] at ho
        | cons kv2 gs =>
          simp only [hobjLEq, Bool.and_eq_true, decide_eq_true_eq] at ho
          simp only [List.map_cons, tFieldsEq, Bool.and_eq_true, decide_eq_true_eq]
          exact ⟨⟨ho.1.1, ihL kv.2 kv2.2 ho.1.2⟩, ihfs gs ho.2⟩
    constructor
    · intro v v' hv
      cases v with
      | null =>
        cases v' <;> simp_all [hvalSEq, readTree, tSEq]
      | num n =>
        cases v' <;> simp_all [hvalSEq, readTree, tSEq]
      | str s =>
        cases v' <;> simp_all [hvalSEq, readTree, tSEq]
      | arr es =>
        cases v' with
        | arr es2 =>
          simp only [hvalSEq] at hv
          simp only [readTree, tSEq]
          exact mapList es es2 hv
        | null => simp [hvalSEq] at hv
        | num m => simp [hvalSEq] at hv
        | str s2 => simp [hvalSEq] at hv
        | ref b => simp [hvalSEq] at hv
      | ref a =>
        cases v' with
        | ref b =>
          simp only [hvalSEq, decide_eq_true_eq] at hv
          subst hv
          simp only [readTree, tSEq]
          exact mapFields _ _ (heapLEq_getD h h' hh a)
        | null => simp [hvalSEq] at hv
        | num m => simp [hvalSEq] at hv
        | str s2 => simp [hvalSEq] at hv
        | arr ys => simp [hvalSEq] at hv
    · intro v v' hv
      cases v with
      | null =>
        cases v' <;> simp_all [hvalLEq, readTree, tLEq]
      | num n =>
        cases v' <;> simp_all [hvalLEq, readTree, tLEq]
      | str s =>
        cases v' <;> simp_all [hvalLEq, readTree, tLEq]
      | arr es =>
        cases v' with
        | arr es2 =>
          simp only [hvalLEq] at hv
          simp only [readTree, tLEq]
          exact mapList es es2 hv
        | null => simp [hvalLEq] at hv
        | num m => simp [hvalLEq] at hv
        | str s2 => simp [hvalLEq] at hv
        | ref b => simp [hvalLEq] at hv
      | ref a =>
        cases v' with
        | ref b =>
          simp only [hvalLEq, decide_eq_true_eq] at hv
          subst hv
          simp only [readTree, tLEq]
          exact mapFields _ _ (heapLEq_getD h h' hh a)
        | null => simp [hvalLEq] at hv
        | num m => simp [hvalLEq] at hv
        | str s2 => simp [hvalLEq] at hv
        | arr ys => simp [hvalLEq] at hv

theorem optLEq_isNone {x y : Option HVal} (h : optLEq x y = true)
    (hy : y.isNone = true) : x.isNone = true := by
  cases y with
  | none =>
    cases x with
    | none => rfl
    | some v => simp [optLEq] at h
  | some w => simp at hy

set_option maxRecDepth 1000000 in
theorem c7canon_ok :
    buildComfyEditHeap heap0 "" (JSNum.fin 0) none (some "s") none
      (fun _ => Except.ok "") = .ok (c7heapC, c7addrC) := rfl

theorem buildComfyEditHeap_noRef_leq (h : Heap) (p1 p2 : String) (s1 s2 : JSNum)
    (ii1 ii2 si1 si2 : Option String) (up1 up2 : String → Except String String)
    {hp1 hp2 : Heap} {a1 a2 : ℕ}
    (hb1 : buildComfyEditHeap h p1 s1 ii1 si1 none up1 = .ok (hp1, a1))
    (hb2 : buildComfyEditHeap h p2 s2 ii2 si2 none up2 = .ok (hp2, a2)) :
    a1 = a2 ∧ heapLEq hp1 hp2 = true := by
  unfold buildComfyEditHeap at hb1 hb2
  dsimp only at hb1 hb2
  split at hb1
  · rename_i wfAddr hrefeq
    rw [hrefeq] at hb2
    dsimp only at hb2
    split at hb1
    · exact absurd hb1 (by simp)
    · rename_i fn1 hup1
      split at hb2
      · exact absurd hb2 (by simp)
      · rename_i fn2 hup2
        rw [if_neg (by simp [isTruthy])] at hb1
        rw [if_neg (by simp [isTruthy])] at hb2
        dsimp only at hb1 hb2
        simp only [Except.ok.injEq, Prod.mk.injEq] at hb1 hb2
        obtain ⟨e1, e2⟩ := hb1
        obtain ⟨e3, e4⟩ := hb2
        subst e1
        subst e2
        subst e3
        subst e4
        refine ⟨rfl, ?_⟩
        refine setInput_leq (setInput_leq (delField_leq (setInput_leq (setInput_leq
          (setInput_leq (heapLEq_refl _) wfAddr "78" "image" (by rfl))
          wfAddr "110" "image2" (by rfl)) wfAddr "111" "image2" (by rfl)) wfAddr "120")
          wfAddr "111" "prompt" (by rfl)) wfAddr "3" "seed" (by rfl)
  · exact absurd hb1 (by simp)

set_option maxRecDepth 1000000 in
/-- C7: when the ComfyUI image-edit payload is built with no reference image
(for any prompt, dimensions, seed, input and source images and upload
outcomes), node `"120"` is absent from the copied workflow object and no
node-reference pair `["120", slot]` remains anywhere in the resulting
graph. -/
theorem c7_no_dangling_reference (prompt : String) (width height seed : JSNum)
    (inputImage sourceImage : Option String)
    (upload : String → Except String String) (customT2I : Option JTree)
    {hp : Heap} {addr : ℕ}
    (hbuild : buildComfyUIPayloadHeap heap0 prompt width height seed
      GenMode.imgedit inputImage sourceImage none upload customT2I
        = .ok (hp, addr))
    (hsrc : (isTruthy inputImage || isTruthy sourceImage) = true) :
    (getField hp addr "120").isNone = true ∧
      containsRefTo "120" (readTree hp readFuel (HVal.ref addr)) = false := by
  rw [show buildComfyUIPayloadHeap heap0 prompt width height seed GenMode.imgedit
      inputImage sourceImage none upload customT2I
      = buildComfyEditHeap heap0 prompt seed inputImage sourceImage none upload by
    simp [buildComfyUIPayloadHeap, hsrc]] at hbuild
  obtain ⟨haddr, hleq⟩ := buildComfyEditHeap_noRef_leq heap0 prompt "" seed
    (JSNum.fin 0) inputImage none sourceImage (some "s") upload
    (fun _ => Except.ok "") hbuild c7canon_ok
  subst haddr
  constructor
  · exact optLEq_isNone (getField_leq hleq c7addrC "120") (by decide)
  · rw [containsRefTo_tLEq "120" _ _
      ((readTree_leq hleq readFuel).2 (HVal.ref c7addrC) (HVal.ref c7addrC)
        (hvalLEq_refl _))]
    decide

set_option maxRecDepth 1000000 in
theorem c7_witness :
    (getField c7wheap c7waddr "120").isNone = true ∧
      containsRefTo "120" (readTree c7wheap readFuel (HVal.ref c7waddr)) = false :=
  c7_no_dangling_reference "PROMPT" (JSNum.fin 1368) (JSNum.fin 768)
    (JSNum.fin 42) none (some "SRC") (fun _ => Except.ok "up.png") none
    rfl (by decide)


/-! ### C8: malformed provider profiles are rejected before anything runs -/

/-- C8: a missing provider, or one with a falsy `apiKey` or `baseUrl`, makes
`generate` raise exactly `Invalid provider configuration` with an empty
phase trace: no type detection, no payload builder, and no dispatch has
run. -/
theorem c8_config_rejected_first (opts : GenOptions) (env : Env)
    (h : opts.provider = none ∨
      ∃ p, opts.provider = some p ∧ (p.apiKey = "" ∨ p.baseUrl = "")) :
    generate opts env = (.error "Invalid provider configuration", []) := by
  rcases h with h | ⟨p, hp, hk | hb⟩
  · simp [generate, h]
  · simp [generate, hp, hk]
  · simp [generate, hp, hb]

/-- C8 witness: a provider with an empty `apiKey`. -/
theorem c8_witness :
    generate { baseOpts ⟨"Test", "", "https://example.com", "m"⟩ with
        provider := some ⟨"Test", "", "https://example.com", "m"⟩ }
      (baseEnv (FetchResult.netError "down") (fun _ => Except.error "no server")) =
      (.error "Invalid provider configuration", []) :=
  c8_config_rejected_first _ _ (Or.inr ⟨_, rfl, Or.inl rfl⟩)

/-! ### C10: which errors are wrapped with `Generation failed: ` -/

/-- C10 counterexample: payload building happens OUTSIDE the try/catch of
`generate`, so a ComfyUI upload failure propagates with its own message —
it is NOT re-raised with the `Generation failed: ` prefix the claim asserts
for every post-validation error. -/
theorem c10_counterexample :
    generate comfyEditOpts (baseEnv (FetchResult.netError "unreachable")
        (fun _ => Except.error "BOOM")) =
      (.error "Failed to upload source image to ComfyUI: BOOM",
        [Event.detectType, Event.buildPayload]) ∧
    startsWithStr "Generation failed: "
      "Failed to upload source image to ComfyUI: BOOM" = false :=
  ⟨rfl, by decide⟩

/-- C10 amended: the configuration error is exactly
`Invalid provider configuration`, unwrapped; errors raised inside the
dispatch/parse phase (HTTP failure, network failure, parse failure and the
poll timeout behind it) are re-raised as `Generation failed: ` plus the
underlying message; but errors raised while building the payload — ComfyUI
upload failures — propagate unwrapped, because `_buildPayload` is awaited
before the try/catch begins. -/
theorem c10_amended :
    (∀ (opts : GenOptions) (env : Env),
      (opts.provider = none ∨
        ∃ p, opts.provider = some p ∧ (p.apiKey = "" ∨ p.baseUrl = "")) →
      generate opts env = (.error "Invalid provider configuration", [])) ∧
    (∀ m : String,
      generate (baseOpts yunwuProvider)
        (baseEnv (FetchResult.netError m) (fun s => Except.ok s)) =
        (.error ("Generation failed: " ++ m),
          [Event.detectType, Event.buildPayload, Event.fetchDispatch])) ∧
    (generate (baseOpts yunwuProvider)
        (baseEnv (FetchResult.httpError 500 "oops") (fun s => Except.ok s)) =
      (.error "Generation failed: HTTP Error: 500 - oops",
        [Event.detectType, Event.buildPayload, Event.fetchDispatch])) ∧
    (generate (baseOpts yunwuProvider)
        (baseEnv (FetchResult.ok { emptyResponse with
          candidates := some [⟨⟨[⟨some "REFUSED", none⟩]⟩⟩] })
          (fun s => Except.ok s)) =
      (.error "Generation failed: No image. AI response: REFUSED",
        [Event.detectType, Event.buildPayload, Event.fetchDispatch,
          Event.parseResponse])) ∧
    (∀ m : String,
      generate comfyEditOpts
        (baseEnv (FetchResult.netError "unreachable") (fun _ => Except.error m)) =
        (.error ("Failed to upload source image to ComfyUI: " ++ m),
          [Event.detectType, Event.buildPayload])) := by
  refine ⟨?_, fun m => rfl, rfl, rfl, fun m => rfl⟩
  intro opts env h
  rcases h with h | ⟨p, hp, hk | hb⟩
  · simp [generate, h]
  · simp [generate, hp, hk]
  · simp [generate, hp, hb]

/-- C10 witness: the wrapped-network-error part applied at a concrete
message, and the config part at a concrete invalid profile. -/
theorem c10_witness :
    generate (baseOpts yunwuProvider)
      (baseEnv (FetchResult.netError "socket hang up") (fun s => Except.ok s)) =
      (.error ("Generation failed: " ++ "socket hang up"),
        [Event.detectType, Event.buildPayload, Event.fetchDispatch]) ∧
    generate { baseOpts yunwuProvider with provider := none }
      (baseEnv (FetchResult.netError "x") (fun s => Except.ok s)) =
      (.error "Invalid provider configuration", []) :=
  ⟨c10_amended.2.1 "socket hang up", c10_amended.1 _ _ (Or.inl rfl)⟩

/-! ### C9: the heap frame argument

The builder deep-copies the templates and then mutates only freshly
allocated objects, so the template region of the heap — everything below
`heap0.length` — is untouched by any call. -/

theorem ValGE.ref_le {N a : ℕ} (h : ValGE N (HVal.ref a)) : N ≤ a := by
  cases h; assumption

theorem presBelow_refl (N : ℕ) (h : Heap) : PresBelow N h h := fun _ _ => rfl

theorem presBelow_trans {N : ℕ} {h1 h2 h3 : Heap} (p : PresBelow N h1 h2)
    (q : PresBelow N h2 h3) : PresBelow N h1 h3 :=
  fun a ha => (q a ha).trans (p a ha)

/-- A prefix extension preserves every address of the old heap. -/
theorem presBelow_of_prefix {N : ℕ} {h h' : Heap} (hp : h <+: h')
    (hN : N ≤ h.length) : PresBelow N h h' := by
  intro a ha
  rcases hp with ⟨ext, rfl⟩
  exact List.getD_append _ _ _ _ (by omega)

/-- The region at or above the whole heap's length is trivially good. -/
theorem goodExt_of_full (h : Heap) : GoodExt h.length h := by
  intro a ha kv hkv
  rw [List.getD_eq_default _ _ ha] at hkv
  exact absurd hkv (List.not_mem_nil kv)

/-- Appending one object whose fields are `N`-good preserves `GoodExt`. -/
theorem goodExt_append (N : ℕ) (h : Heap) (o : HObj) (hG : GoodExt N h)
    (ho : ∀ kv ∈ o, ValGE N kv.2) : GoodExt N (h ++ [o]) := by
  intro a ha kv hkv
  rcases Nat.lt_trichotomy a h.length with hlt | heq | hgt
  · rw [List.getD_append _ _ _ _ hlt] at hkv
    exact hG a ha kv hkv
  · rw [List.getD_append_right _ _ _ _ (Nat.le_of_eq heq.symm)] at hkv
    rw [heq] at hkv
    simp at hkv
    exact ho kv hkv
  · have hlen : (h ++ [o]).length ≤ a := by simp; omega
    rw [List.getD_eq_default _ _ hlen] at hkv
    exact absurd hkv (List.not_mem_nil kv)

mutual

theorem storeTree_spec : ∀ (N : ℕ) (h : Heap) (t : JTree), N ≤ h.length → GoodExt N h →
    h <+: (storeTree h t).1 ∧ GoodExt N (storeTree h t).1 ∧ ValGE N (storeTree h t).2
  | _, h, JTree.null, _, hG => ⟨List.prefix_refl h, hG, ValGE.null⟩
  | _, h, JTree.num n, _, hG => ⟨List.prefix_refl h, hG, ValGE.num n⟩
  | _, h, JTree.str s, _, hG => ⟨List.prefix_refl h, hG, ValGE.str s⟩
  | N, h, JTree.arr es, hN, hG =>
    have hl := storeTreeList_spec N h es hN hG
    ⟨hl.1, hl.2.1, ValGE.arr _ hl.2.2⟩
  | N, h, JTree.obj fs, hN, hG =>
    have hf := storeTreeFields_spec N h fs hN hG
    ⟨hf.1.trans (List.prefix_append _ _),
     goodExt_append N _ _ hf.2.1 hf.2.2,
     ValGE.ref _ (hN.trans hf.1.length_le)⟩

theorem storeTreeList_spec : ∀ (N : ℕ) (h : Heap) (ts : List JTree),
    N ≤ h.length → GoodExt N h →
    h <+: (storeTreeList h ts).1 ∧ GoodExt N (storeTreeList h ts).1 ∧
      ∀ v ∈ (storeTreeList h ts).2, ValGE N v
  | _, h, [], _, hG =>
    ⟨List.prefix_refl h, hG, fun v hv => absurd hv (List.not_mem_nil v)⟩
  | N, h, t :: ts, hN, hG =>
    have h1 := storeTree_spec N h t hN hG
    have h2 := storeTreeList_spec N (storeTree h t).1 ts
      (hN.trans h1.1.length_le) h1.2.1
    ⟨h1.1.trans h2.1, h2.2.1, by
      intro v hv
      rcases List.mem_cons.mp hv with rfl | hv2
      · exact h1.2.2
      · exact h2.2.2 v hv2⟩

theorem storeTreeFields_spec : ∀ (N : ℕ) (h : Heap) (fs : List (String × JTree)),
    N ≤ h.length → GoodExt N h →
    h <+: (storeTreeFields h fs).1 ∧ GoodExt N (storeTreeFields h fs).1 ∧
      ∀ kv ∈ (storeTreeFields h fs).2, ValGE N kv.2
  | _, h, [], _, hG =>
    ⟨List.prefix_refl h, hG, fun kv hkv => absurd hkv (List.not_mem_nil kv)⟩
  | N, h, (k, t) :: fs, hN, hG =>
    have h1 := storeTree_spec N h t hN hG
    have h2 := storeTreeFields_spec N (storeTree h t).1 fs
      (hN.trans h1.1.length_le) h1.2.1
    ⟨h1.1.trans h2.1, h2.2.1, by
      intro kv hkv
      rcases List.mem_cons.mp hkv with rfl | hkv2
      · exact h1.2.2
      · exact h2.2.2 kv hkv2⟩

end

/-- Reading a value whose dereferences stay below `N` gives the same tree in
any heap that agrees below `N`. -/
theorem readTree_congr (h h' : Heap) (N : ℕ) (hpres : PresBelow N h h') :
    ∀ (f : ℕ) (v : HVal), boundedRead h N f v = true →
      readTree h' f v = readTree h f v := by
  intro f
  induction f with
  | zero => intro v _; rfl
  | succ f ih =>
    intro v hb
    cases v with
    | null => rfl
    | num n => rfl
    | str s => rfl
    | arr es =>
      simp only [readTree]
      congr 1
      apply List.map_congr_left
      intro e he
      apply ih
      simp only [boundedRead, List.all_eq_true] at hb
      exact hb e he
    | ref a =>
      simp only [boundedRead, Bool.and_eq_true, decide_eq_true_eq,
        List.all_eq_true] at hb
      simp only [readTree]
      rw [hpres a hb.1]
      congr 1
      apply List.map_congr_left
      intro kv hkv
      have := hb.2 kv hkv
      rw [ih kv.2 this]

theorem getD_set_ne {h : Heap} {a b : ℕ} {o : HObj} (hne : a ≠ b) :
    (h.set a o).getD b [] = h.getD b [] := by
  by_cases hb : b < h.length
  · rw [List.getD_eq_getElem _ _ (by simpa using hb), List.getD_eq_getElem _ _ hb]
    exact List.getElem_set_ne hne _
  · push_neg at hb
    rw [List.getD_eq_default _ _ (by simpa using hb), List.getD_eq_default _ _ hb]

theorem getD_set_self {h : Heap} {a : ℕ} {o : HObj} (ha : a < h.length) :
    (h.set a o).getD a [] = o := by
  rw [List.getD_eq_getElem _ _ (by simpa using ha)]
  exact List.getElem_set_self _

theorem setField_presBelow (N : ℕ) (h : Heap) (a : ℕ) (k : String) (v : HVal)
    (ha : N ≤ a) : PresBelow N h (setField h a k v) := by
  intro b hb
  exact getD_set_ne (by omega)

theorem objGE_setFieldObj {N : ℕ} {o : HObj} (ho : ∀ kv ∈ o, ValGE N kv.2)
    {k : String} {v : HVal} (hv : ValGE N v) :
    ∀ kv ∈ setFieldObj o k v, ValGE N kv.2 := by
  intro kv hkv
  unfold setFieldObj at hkv
  split at hkv
  · rcases List.mem_map.mp hkv with ⟨kv2, hkv2, rfl⟩
    by_cases hk : kv2.1 = k
    · simpa [hk] using hv
    · simpa [hk] using ho kv2 hkv2
  · rcases List.mem_append.mp hkv with hkv | hkv
    · exact ho kv hkv
    · simp at hkv
      rw [hkv]
      exact hv

theorem setField_goodExt (N : ℕ) (h : Heap) (a : ℕ) (k : String) (v : HVal)
    (hG : GoodExt N h) (hv : ValGE N v) : GoodExt N (setField h a k v) := by
  intro b hb kv hkv
  unfold setField at hkv
  by_cases hab : a = b
  · subst hab
    by_cases hlen : a < h.length
    · rw [getD_set_self hlen] at hkv
      exact objGE_setFieldObj (hG a hb) hv kv hkv
    · push_neg at hlen
      rw [List.getD_eq_default _ _ (by simpa using hlen)] at hkv
      exact absurd hkv (List.not_mem_nil kv)
  · rw [getD_set_ne hab] at hkv
    exact hG b hb kv hkv

theorem delField_presBelow (N : ℕ) (h : Heap) (a : ℕ) (k : String)
    (ha : N ≤ a) : PresBelow N h (delField h a k) := by
  intro b hb
  exact getD_set_ne (by omega)

theorem delField_goodExt (N : ℕ) (h : Heap) (a : ℕ) (k : String)
    (hG : GoodExt N h) : GoodExt N (delField h a k) := by
  intro b hb kv hkv
  unfold delField at hkv
  by_cases hab : a = b
  · subst hab
    by_cases hlen : a < h.length
    · rw [getD_set_self hlen] at hkv
      unfold delFieldObj at hkv
      exact hG a hb kv (List.mem_filter.mp hkv).1
    · push_neg at hlen
      rw [List.getD_eq_default _ _ (by simpa using hlen)] at hkv
      exact absurd hkv (List.not_mem_nil kv)
  · rw [getD_set_ne hab] at hkv
    exact hG b hb kv hkv

theorem getField_valGE {N : ℕ} {h : Heap} {a : ℕ} {k : String} {v : HVal}
    (hG : GoodExt N h) (ha : N ≤ a) (hgf : getField h a k = some v) :
    ValGE N v := by
  unfold getField at hgf
  cases hfind : (h.getD a []).find? (fun kv => kv.1 = k) with
  | none => rw [hfind] at hgf; simp at hgf
  | some kv =>
    rw [hfind] at hgf
    simp at hgf
    rw [← hgf]
    exact hG a ha kv (List.mem_of_find?_eq_some hfind)

theorem setInput_spec (N : ℕ) (h : Heap) (wfAddr : ℕ) (nodeId key : String)
    (v : HVal) (hw : N ≤ wfAddr) (hG : GoodExt N h) (hv : ValGE N v) :
    PresBelow N h (setInput h wfAddr nodeId key v) ∧
      GoodExt N (setInput h wfAddr nodeId key v) := by
  cases h1 : getField h wfAddr nodeId with
  | none =>
    rw [show setInput h wfAddr nodeId key v = h by simp [setInput, h1]]
    exact ⟨presBelow_refl N h, hG⟩
  | some val =>
    cases val with
    | ref na =>
      have hna := (getField_valGE hG hw h1).ref_le
      cases h2 : getField h na "inputs" with
      | none =>
        rw [show setInput h wfAddr nodeId key v = h by simp [setInput, h1, h2]]
        exact ⟨presBelow_refl N h, hG⟩
      | some val2 =>
        cases val2 with
        | ref ia =>
          rw [show setInput h wfAddr nodeId key v = setField h ia key v by
            simp [setInput, h1, h2]]
          have hia := (getField_valGE hG hna h2).ref_le
          exact ⟨setField_presBelow N h ia key v hia,
            setField_goodExt N h ia key v hG hv⟩
        | null =>
          rw [show setInput h wfAddr nodeId key v = h by simp [setInput, h1, h2]]
          exact ⟨presBelow_refl N h, hG⟩
        | num n =>
          rw [show setInput h wfAddr nodeId key v = h by simp [setInput, h1, h2]]
          exact ⟨presBelow_refl N h, hG⟩
        | str s =>
          rw [show setInput h wfAddr nodeId key v = h by simp [setInput, h1, h2]]
          exact ⟨presBelow_refl N h, hG⟩
        | arr es =>
          rw [show setInput h wfAddr nodeId key v = h by simp [setInput, h1, h2]]
          exact ⟨presBelow_refl N h, hG⟩
    | null =>
      rw [show setInput h wfAddr nodeId key v = h by simp [setInput, h1]]
      exact ⟨presBelow_refl N h, hG⟩
    | num n =>
      rw [show setInput h wfAddr nodeId key v = h by simp [setInput, h1]]
      exact ⟨presBelow_refl N h, hG⟩
    | str s =>
      rw [show setInput h wfAddr nodeId key v = h by simp [setInput, h1]]
      exact ⟨presBelow_refl N h, hG⟩
    | arr es =>
      rw [show setInput h wfAddr nodeId key v = h by simp [setInput, h1]]
      exact ⟨presBelow_refl N h, hG⟩

theorem findKSampler_ge {N : ℕ} {h : Heap} {wfAddr : ℕ} (hw : N ≤ wfAddr)
    (hG : GoodExt N h) {na : ℕ} (hna : findKSampler h wfAddr = some na) :
    N ≤ na := by
  unfold findKSampler at hna
  obtain ⟨kv, hfind, hbind⟩ := Option.bind_eq_some.mp hna
  have hmem := List.mem_of_find?_eq_some hfind
  have hval := hG wfAddr hw kv hmem
  cases hkv : kv.2 with
  | ref na2 =>
    rw [hkv] at hbind
    simp at hbind
    rw [← hbind]
    rw [hkv] at hval
    exact hval.ref_le
  | null => rw [hkv] at hbind; simp at hbind
  | num n => rw [hkv] at hbind; simp at hbind
  | str s => rw [hkv] at hbind; simp at hbind
  | arr es => rw [hkv] at hbind; simp at hbind

/-- Fold invariant: if the step preserves `P` for every element of the list,
the fold preserves `P`. -/
theorem foldl_preserves_mem {β : Type} (P : Heap → Prop) (f : Heap → β → Heap) :
    ∀ (l : List β), (∀ acc x, x ∈ l → P acc → P (f acc x)) →
      ∀ acc, P acc → P (l.foldl f acc)
  | [], _, _, hP => hP
  | x :: xs, hf, acc, hP =>
    foldl_preserves_mem P f xs
      (fun acc2 y hy => hf acc2 y (List.mem_cons_of_mem x hy))
      (f acc x) (hf acc x (List.mem_cons_self x xs) hP)

theorem injectSeedAndTrace_spec (N : ℕ) (h : Heap) (wfAddr : ℕ) (seed : JSNum)
    (hw : N ≤ wfAddr) (hG : GoodExt N h) :
    PresBelow N h (injectSeedAndTrace h wfAddr seed).1 ∧
      GoodExt N (injectSeedAndTrace h wfAddr seed).1 := by
  cases hks : findKSampler h wfAddr with
  | none =>
    rw [show (injectSeedAndTrace h wfAddr seed).1 = h by
      simp [injectSeedAndTrace, hks]]
    exact ⟨presBelow_refl N h, hG⟩
  | some na =>
    have hna := findKSampler_ge hw hG hks
    cases h2 : getField h na "inputs" with
    | none =>
      rw [show (injectSeedAndTrace h wfAddr seed).1 = h by
        simp [injectSeedAndTrace, hks, h2]]
      exact ⟨presBelow_refl N h, hG⟩
    | some val2 =>
      cases val2 with
      | ref ia =>
        rw [show (injectSeedAndTrace h wfAddr seed).1 =
            setField h ia "seed" (HVal.num seed) by
          simp [injectSeedAndTrace, hks, h2]]
        have hia := (getField_valGE hG hna h2).ref_le
        exact ⟨setField_presBelow N h ia _ _ hia,
          setField_goodExt N h ia _ _ hG (ValGE.num seed)⟩
      | null =>
        rw [show (injectSeedAndTrace h wfAddr seed).1 = h by
          simp [injectSeedAndTrace, hks, h2]]
        exact ⟨presBelow_refl N h, hG⟩
      | num n =>
        rw [show (injectSeedAndTrace h wfAddr seed).1 = h by
          simp [injectSeedAndTrace, hks, h2]]
        exact ⟨presBelow_refl N h, hG⟩
      | str s =>
        rw [show (injectSeedAndTrace h wfAddr seed).1 = h by
          simp [injectSeedAndTrace, hks, h2]]
        exact ⟨presBelow_refl N h, hG⟩
      | arr es =>
        rw [show (injectSeedAndTrace h wfAddr seed).1 = h by
          simp [injectSeedAndTrace, hks, h2]]
        exact ⟨presBelow_refl N h, hG⟩

theorem injectDimsStep_spec (N : ℕ) (h0 : Heap) (width height : JSNum)
    (acc : Heap) (kv : String × HVal) (hkv : ValGE N kv.2)
    (hP : PresBelow N h0 acc ∧ GoodExt N acc) :
    PresBelow N h0 (injectDimsStep width height acc kv) ∧
      GoodExt N (injectDimsStep width height acc kv) := by
  obtain ⟨hp, hg⟩ := hP
  cases hv : kv.2 with
  | ref na =>
    rw [hv] at hkv
    have hna := hkv.ref_le
    cases h1 : getField acc na "class_type" with
    | none =>
      rw [show injectDimsStep width height acc kv = acc by
        simp [injectDimsStep, hv, h1]]
      exact ⟨hp, hg⟩
    | some cval =>
      cases cval with
      | str c =>
        by_cases hc : (startsWithStr "EmptyLatentImage" c ||
            containsStr "EmptySD3Latent" c) = true
        · cases h2 : getField acc na "inputs" with
          | none =>
            rw [show injectDimsStep width height acc kv = acc by
              simp [injectDimsStep, hv, h1, h2, hc]]
            exact ⟨hp, hg⟩
          | some val2 =>
            cases val2 with
            | ref ia =>
              rw [show injectDimsStep width height acc kv =
                  setField (setField acc ia "width" (HVal.num width)) ia
                    "height" (HVal.num height) by
                simp [injectDimsStep, hv, h1, h2, hc]]
              have hia := (getField_valGE hg hna h2).ref_le
              refine ⟨presBelow_trans hp (presBelow_trans
                (setField_presBelow N acc ia _ _ hia)
                (setField_presBelow N _ ia _ _ hia)), ?_⟩
              exact setField_goodExt N _ ia _ _
                (setField_goodExt N acc ia _ _ hg (ValGE.num width))
                (ValGE.num height)
            | null =>
              rw [show injectDimsStep width height acc kv = acc by
                simp [injectDimsStep, hv, h1, h2, hc]]
              exact ⟨hp, hg⟩
            | num n =>
              rw [show injectDimsStep width height acc kv = acc by
                simp [injectDimsStep, hv, h1, h2, hc]]
              exact ⟨hp, hg⟩
            | str s =>
              rw [show injectDimsStep width height acc kv = acc by
                simp [injectDimsStep, hv, h1, h2, hc]]
              exact ⟨hp, hg⟩
            | arr es =>
              rw [show injectDimsStep width height acc kv = acc by
                simp [injectDimsStep, hv, h1, h2, hc]]
              exact ⟨hp, hg⟩
        · rw [show injectDimsStep width height acc kv = acc by
            simp [injectDimsStep, hv, h1, hc]]
          exact ⟨hp, hg⟩
      | null =>
        rw [show injectDimsStep width height acc kv = acc by
          simp [injectDimsStep, hv, h1]]
        exact ⟨hp, hg⟩
      | num n =>
        rw [show injectDimsStep width height acc kv = acc by
          simp [injectDimsStep, hv, h1]]
        exact ⟨hp, hg⟩
      | ref a =>
        rw [show injectDimsStep width height acc kv = acc by
          simp [injectDimsStep, hv, h1]]
        exact ⟨hp, hg⟩
      | arr es =>
        rw [show injectDimsStep width height acc kv = acc by
          simp [injectDimsStep, hv, h1]]
        exact ⟨hp, hg⟩
  | null =>
    rw [show injectDimsStep width height acc kv = acc by simp [injectDimsStep, hv]]
    exact ⟨hp, hg⟩
  | num n =>
    rw [show injectDimsStep width height acc kv = acc by simp [injectDimsStep, hv]]
    exact ⟨hp, hg⟩
  | str s =>
    rw [show injectDimsStep width height acc kv = acc by simp [injectDimsStep, hv]]
    exact ⟨hp, hg⟩
  | arr es =>
    rw [show injectDimsStep width height acc kv = acc by simp [injectDimsStep, hv]]
    exact ⟨hp, hg⟩

theorem injectDims_spec (N : ℕ) (h : Heap) (wfAddr : ℕ) (width height : JSNum)
    (hw : N ≤ wfAddr) (hG : GoodExt N h) :
    PresBelow N h (injectDims h wfAddr width height) ∧
      GoodExt N (injectDims h wfAddr width height) := by
  unfold injectDims
  refine foldl_preserves_mem
    (fun acc => PresBelow N h acc ∧ GoodExt N acc)
    (injectDimsStep width height) (h.getD wfAddr []) ?_ h
    ⟨presBelow_refl N h, hG⟩
  intro acc kv hkv hP
  exact injectDimsStep_spec N h width height acc kv (hG wfAddr hw kv hkv) hP

theorem injectPositive_spec (N : ℕ) (h : Heap) (wfAddr : ℕ)
    (posId : Option String) (prompt : String)
    (hw : N ≤ wfAddr) (hG : GoodExt N h) :
    PresBelow N h (injectPositive h wfAddr posId prompt) ∧
      GoodExt N (injectPositive h wfAddr posId prompt) := by
  cases posId with
  | none =>
    rw [show injectPositive h wfAddr none prompt = h by simp [injectPositive]]
    exact ⟨presBelow_refl N h, hG⟩
  | some pid =>
    cases h1 : getField h wfAddr pid with
    | none =>
      rw [show injectPositive h wfAddr (some pid) prompt = h by
        simp [injectPositive, h1]]
      exact ⟨presBelow_refl N h, hG⟩
    | some val =>
      cases val with
      | ref na =>
        have hna := (getField_valGE hG hw h1).ref_le
        cases h2 : getField h na "inputs" with
        | none =>
          rw [show injectPositive h wfAddr (some pid) prompt = h by
            simp [injectPositive, h1, h2]]
          exact ⟨presBelow_refl N h, hG⟩
        | some val2 =>
          cases val2 with
          | ref ia =>
            rw [show injectPositive h wfAddr (some pid) prompt =
                setField h ia "text" (HVal.str prompt) by
              simp [injectPositive, h1, h2]]
            have hia := (getField_valGE hG hna h2).ref_le
            exact ⟨setField_presBelow N h ia _ _ hia,
              setField_goodExt N h ia _ _ hG (ValGE.str prompt)⟩
          | null =>
            rw [show injectPositive h wfAddr (some pid) prompt = h by
              simp [injectPositive, h1, h2]]
            exact ⟨presBelow_refl N h, hG⟩
          | num n =>
            rw [show injectPositive h wfAddr (some pid) prompt = h by
              simp [injectPositive, h1, h2]]
            exact ⟨presBelow_refl N h, hG⟩
          | str s =>
            rw [show injectPositive h wfAddr (some pid) prompt = h by
              simp [injectPositive, h1, h2]]
            exact ⟨presBelow_refl N h, hG⟩
          | arr es =>
            rw [show injectPositive h wfAddr (some pid) prompt = h by
              simp [injectPositive, h1, h2]]
            exact ⟨presBelow_refl N h, hG⟩
      | null =>
        rw [show injectPositive h wfAddr (some pid) prompt = h by
          simp [injectPositive, h1]]
        exact ⟨presBelow_refl N h, hG⟩
      | num n =>
        rw [show injectPositive h wfAddr (some pid) prompt = h by
          simp [injectPositive, h1]]
        exact ⟨presBelow_refl N h, hG⟩
      | str s =>
        rw [show injectPositive h wfAddr (some pid) prompt = h by
          simp [injectPositive, h1]]
        exact ⟨presBelow_refl N h, hG⟩
      | arr es =>
        rw [show injectPositive h wfAddr (some pid) prompt = h by
          simp [injectPositive, h1]]
        exact ⟨presBelow_refl N h, hG⟩

theorem injectParams_spec (N : ℕ) (h : Heap) (wfAddr : ℕ) (prompt : String)
    (width height seed : JSNum) (hw : N ≤ wfAddr) (hG : GoodExt N h) :
    PresBelow N h (injectParams h wfAddr prompt width height seed) ∧
      GoodExt N (injectParams h wfAddr prompt width height seed) := by
  obtain ⟨hp1, hg1⟩ := injectSeedAndTrace_spec N h wfAddr seed hw hG
  obtain ⟨hp2, hg2⟩ := injectDims_spec N (injectSeedAndTrace h wfAddr seed).1
    wfAddr width height hw hg1
  obtain ⟨hp3, hg3⟩ := injectPositive_spec N
    (injectDims (injectSeedAndTrace h wfAddr seed).1 wfAddr width height)
    wfAddr (injectSeedAndTrace h wfAddr seed).2 prompt hw hg2
  exact ⟨presBelow_trans hp1 (presBelow_trans hp2 hp3), hg3⟩

set_option maxHeartbeats 1000000 in
theorem buildComfyEditHeap_presBelow (h : Heap) (prompt : String) (seed : JSNum)
    (inputImage sourceImage referenceImage : Option String)
    (upload : String → Except String String) :
    match buildComfyEditHeap h prompt seed inputImage sourceImage referenceImage upload with
    | .ok (hp, addr) => PresBelow h.length h hp ∧ h.length ≤ addr
    | .error _ => True := by
  obtain ⟨hpre, hG1, hv⟩ := storeTree_spec h.length h (readTree h readFuel qwenRoot)
    (le_refl _) (goodExt_of_full h)
  have hpre' : PresBelow h.length h (storeTree h (readTree h readFuel qwenRoot)).1 :=
    presBelow_of_prefix hpre (le_refl _)
  unfold buildComfyEditHeap
  split
  · rename_i hp addr heq
    dsimp only at heq
    split at heq
    · rename_i wfAddr hrefeq
      rw [hrefeq] at hv
      have hwf : h.length ≤ wfAddr := hv.ref_le
      split at heq
      · exact absurd heq (by simp)
      · rename_i sourceFilename hup
        obtain ⟨hp2, hg2⟩ := setInput_spec h.length _ wfAddr "78" "image"
          (HVal.str sourceFilename) hwf hG1 (ValGE.str _)
        by_cases hrim : isTruthy referenceImage = true
        · rw [if_pos hrim] at heq
          split at heq
          · exact absurd heq (by simp)
          · rename_i h3 hafter
            split at hafter
            · exact absurd hafter (by simp)
            · rename_i referenceFilename hup2
              simp only [Except.ok.injEq] at hafter
              subst hafter
              simp only [Except.ok.injEq, Prod.mk.injEq] at heq
              obtain ⟨hhp, haddr⟩ := heq
              subst hhp
              subst haddr
              obtain ⟨hp3, hg3⟩ := setInput_spec h.length _ wfAddr "120" "image"
                (HVal.str referenceFilename) hwf hg2 (ValGE.str _)
              obtain ⟨hp4, hg4⟩ := setInput_spec h.length _ wfAddr "111" "prompt"
                (HVal.str prompt) hwf hg3 (ValGE.str _)
              obtain ⟨hp5, _⟩ := setInput_spec h.length _ wfAddr "3" "seed"
                (HVal.num seed) hwf hg4 (ValGE.num _)
              exact ⟨presBelow_trans hpre' (presBelow_trans hp2 (presBelow_trans hp3
                (presBelow_trans hp4 hp5))), hwf⟩
        · rw [if_neg hrim] at heq
          dsimp only at heq
          simp only [Except.ok.injEq, Prod.mk.injEq] at heq
          obtain ⟨hhp, haddr⟩ := heq
          subst hhp
          subst haddr
          obtain ⟨hp3, hg3⟩ := setInput_spec h.length _ wfAddr "110" "image2"
            HVal.null hwf hg2 ValGE.null
          obtain ⟨hp4, hg4⟩ := setInput_spec h.length _ wfAddr "111" "image2"
            HVal.null hwf hg3 ValGE.null
          have hp5 := delField_presBelow h.length
            (setInput (setInput (setInput (storeTree h (readTree h readFuel qwenRoot)).1
              wfAddr "78" "image" (HVal.str sourceFilename)) wfAddr "110" "image2" HVal.null)
              wfAddr "111" "image2" HVal.null) wfAddr "120" hwf
          have hg5 := delField_goodExt h.length
            (setInput (setInput (setInput (storeTree h (readTree h readFuel qwenRoot)).1
              wfAddr "78" "image" (HVal.str sourceFilename)) wfAddr "110" "image2" HVal.null)
              wfAddr "111" "image2" HVal.null) wfAddr "120" hg4
          obtain ⟨hp6, hg6⟩ := setInput_spec h.length _ wfAddr "111" "prompt"
            (HVal.str prompt) hwf hg5 (ValGE.str _)
          obtain ⟨hp7, _⟩ := setInput_spec h.length _ wfAddr "3" "seed"
            (HVal.num seed) hwf hg6 (ValGE.num _)
          exact ⟨presBelow_trans hpre' (presBelow_trans hp2 (presBelow_trans hp3
            (presBelow_trans hp4 (presBelow_trans hp5 (presBelow_trans hp6 hp7))))), hwf⟩
    · exact absurd heq (by simp)
  · trivial

theorem buildComfyT2ICustom_presBelow (h : Heap) (t : JTree) (prompt : String)
    (width height seed : JSNum) :
    PresBelow h.length h (buildComfyT2ICustom h t prompt width height seed).1 ∧
      h.length ≤ (buildComfyT2ICustom h t prompt width height seed).2 := by
  obtain ⟨hpre, hG1, hv⟩ := storeTree_spec h.length h t (le_refl _) (goodExt_of_full h)
  have hpre' := presBelow_of_prefix hpre (le_refl _)
  unfold buildComfyT2ICustom
  dsimp only
  split
  · rename_i wfAddr hps
    rw [hps] at hv
    have hwf := hv.ref_le
    obtain ⟨hpi, _⟩ := injectParams_spec h.length (storeTree h t).1 wfAddr prompt
      width height seed hwf hG1
    exact ⟨presBelow_trans hpre' hpi, hwf⟩
  · exact ⟨hpre', hpre.length_le⟩

theorem buildComfyT2IBuiltin_presBelow (h : Heap) (prompt : String)
    (width height seed : JSNum) :
    match buildComfyT2IBuiltin h prompt width height seed with
    | .ok (hp, addr) => PresBelow h.length h hp ∧ h.length ≤ addr
    | .error _ => True := by
  obtain ⟨hpre, hG1, hv⟩ := storeTree_spec h.length h (readTree h readFuel zRoot)
    (le_refl _) (goodExt_of_full h)
  have hpre' := presBelow_of_prefix hpre (le_refl _)
  unfold buildComfyT2IBuiltin
  split
  · rename_i hp addr heq
    dsimp only at heq
    split at heq
    · rename_i wfAddr hrefeq
      rw [hrefeq] at hv
      have hwf := hv.ref_le
      simp only [Except.ok.injEq, Prod.mk.injEq] at heq
      obtain ⟨hhp, haddr⟩ := heq
      subst hhp
      subst haddr
      obtain ⟨hp2, hg2⟩ := setInput_spec h.length _ wfAddr "45" "text"
        (HVal.str prompt) hwf hG1 (ValGE.str _)
      obtain ⟨hp3, hg3⟩ := setInput_spec h.length _ wfAddr "41" "width"
        (HVal.num width) hwf hg2 (ValGE.num _)
      obtain ⟨hp4, hg4⟩ := setInput_spec h.length _ wfAddr "41" "height"
        (HVal.num height) hwf hg3 (ValGE.num _)
      obtain ⟨hp5, _⟩ := setInput_spec h.length _ wfAddr "44" "seed"
        (HVal.num seed) hwf hg4 (ValGE.num _)
      exact ⟨presBelow_trans hpre' (presBelow_trans hp2 (presBelow_trans hp3
        (presBelow_trans hp4 hp5))), hwf⟩
    · exact absurd heq (by simp)
  · trivial

theorem buildComfyUIPayloadHeap_presBelow (h : Heap) (prompt : String)
    (width height seed : JSNum) (mode : GenMode)
    (inputImage sourceImage referenceImage : Option String)
    (upload : String → Except String String) (customT2I : Option JTree)
    {hp : Heap} {addr : ℕ}
    (hok : buildComfyUIPayloadHeap h prompt width height seed mode inputImage
      sourceImage referenceImage upload customT2I = .ok (hp, addr)) :
    PresBelow h.length h hp ∧ h.length ≤ addr := by
  unfold buildComfyUIPayloadHeap at hok
  split at hok
  · have hmain := buildComfyEditHeap_presBelow h prompt seed inputImage
      sourceImage referenceImage upload
    rw [hok] at hmain
    exact hmain
  · split at hok
    · rename_i t
      simp only [Except.ok.injEq] at hok
      have hmain := buildComfyT2ICustom_presBelow h t prompt width height seed
      rw [hok] at hmain
      exact hmain
    · have hmain := buildComfyT2IBuiltin_presBelow h prompt width height seed
      rw [hok] at hmain
      exact hmain

set_option maxRecDepth 1000000 in
/-- C9: building a ComfyUI payload (in any mode, with any images, upload
outcomes and custom workflow) leaves the module-level Z-Image and Qwen-Edit
template objects unchanged: reading either template back from the result
heap yields exactly the tree read from the pristine module heap. -/
theorem c9_templates_preserved (prompt : String) (width height seed : JSNum)
    (mode : GenMode) (inputImage sourceImage referenceImage : Option String)
    (upload : String → Except String String) (customT2I : Option JTree)
    {hp : Heap} {addr : ℕ}
    (hbuild : buildComfyUIPayloadHeap heap0 prompt width height seed mode
      inputImage sourceImage referenceImage upload customT2I = .ok (hp, addr)) :
    readTree hp readFuel qwenRoot = readTree heap0 readFuel qwenRoot ∧
      readTree hp readFuel zRoot = readTree heap0 readFuel zRoot := by
  obtain ⟨hpres, _⟩ := buildComfyUIPayloadHeap_presBelow heap0 prompt width height
    seed mode inputImage sourceImage referenceImage upload customT2I hbuild
  exact ⟨readTree_congr heap0 hp heap0.length hpres readFuel qwenRoot (by decide),
    readTree_congr heap0 hp heap0.length hpres readFuel zRoot (by decide)⟩

set_option maxRecDepth 1000000 in
theorem c9_witness :
    readTree (heap0 ++ [([] : HObj)]) readFuel qwenRoot
        = readTree heap0 readFuel qwenRoot ∧
      readTree (heap0 ++ [([] : HObj)]) readFuel zRoot
        = readTree heap0 readFuel zRoot :=
  c9_templates_preserved "p" (JSNum.fin 1) (JSNum.fin 1) (JSNum.fin 1)
    GenMode.text2img none none none (fun _ => Except.ok "")
    (some (JTree.obj [])) rfl


end PSBanana
